import Mathlib

set_option maxRecDepth 1000000
set_option maxHeartbeats 4000000

/-!
Verification development for the PowerCenter → Azure Data Factory migration
engine (files `src/expression_translator.py`, `src/script_generator.py`,
`src/translator.py`).

The Python sources are shallowly embedded:
* strings are `List Char` (Python `str` of the relevant ASCII data),
* Python's `re` module is embedded by a small backtracking regular-expression
  engine (`Rex`) whose alternation/laziness/greediness priority order matches
  CPython's backtracking semantics; each Python pattern literal is transcribed
  into a `Rex.RE` value next to its source text,
* functions that mutate `self.errors` / `self.warnings` are embedded as pure
  functions returning the appended messages,
* a raised `ValueError` is embedded as `Except.error`.
-/

namespace Py

/-- Python `str.isspace` / `\s` for the ASCII range (space, tab, newline,
carriage return, vertical tab, form feed). -/
def isSpace (c : Char) : Bool :=
  c = ' ' || c = '\t' || c = '\n' || c = '\r' || c = '\x0b' || c = '\x0c'

/-- Python `\w` (word character) for the ASCII range: letters, digits, `_`. -/
def isWord (c : Char) : Bool :=
  c.isAlpha || c.isDigit || c = '_'

/-- ASCII lower-casing of one character (Python `str.lower` on ASCII data). -/
def lowerC (c : Char) : Char := c.toLower

/-- ASCII upper-casing of one character (Python `str.upper` on ASCII data). -/
def upperC (c : Char) : Char := c.toUpper

/-- Python `str.upper` on the character list. -/
def upper (s : List Char) : List Char := s.map upperC

/-- Python `str.strip()`: drop leading and trailing whitespace. -/
def strip (s : List Char) : List Char :=
  ((s.dropWhile isSpace).reverse.dropWhile isSpace).reverse

/-- Python `needle in hay` (substring containment). -/
def isSubstr (needle hay : List Char) : Bool :=
  match hay with
  | [] => needle.isEmpty
  | _ :: t => needle.isPrefixOf hay || isSubstr needle t

/-- Python string `<` : lexicographic comparison by code point. -/
def strLt (a b : List Char) : Bool :=
  match a, b with
  | [], [] => false
  | [], _ :: _ => true
  | _ :: _, [] => false
  | x :: xs, y :: ys =>
    if x.toNat < y.toNat then true
    else if y.toNat < x.toNat then false
    else strLt xs ys

/-- Python string `<=` (used to model `list.sort()` on strings). -/
def strLe (a b : List Char) : Bool := !(strLt b a)

/-- Deduplication keeping the first occurrence of each element, as Python\'s
`set`/`dict.fromkeys` insertion-order semantics (structural recursion so the
kernel can evaluate it). -/
def dedupFirst : List String → List String
  | [] => []
  | x :: xs => x :: (dedupFirst xs).filter (fun y => y != x)

end Py

namespace Rex

/-- Regular expressions, covering exactly the constructs used by the Python
patterns of this repository.  `cls` is a single-character class, `starG`/`starL`
are greedy/lazy Kleene stars, `grp` is a numbered capturing group, `look` is a
lookahead `(?=…)`, `eos` is `$`, and `wordB` is `\b`. -/
inductive RE where
  | eps : RE
  | cls : (Char → Bool) → RE
  | seq : RE → RE → RE
  | alt : RE → RE → RE
  | starG : RE → RE
  | starL : RE → RE
  | opt : RE → RE
  | grp : Nat → RE → RE
  | look : RE → RE
  | eos : RE
  | wordB : RE

/-- Captured groups: most recent capture of a group number first. -/
abbrev Groups := List (Nat × List Char)

def getGroup (g : Groups) (n : Nat) : List Char :=
  match g.find? (fun p => p.1 = n) with
  | some p => p.2
  | none => []

def oalt {α : Type} (a : Option α) (b : Unit → Option α) : Option α :=
  match a with
  | some x => some x
  | none => b ()

def isWordO (c : Option Char) : Bool :=
  match c with
  | some c => Py.isWord c
  | none => false

/-- Backtracking matcher in continuation-passing style.  `prev` is the
character immediately before the current position (for `\b`), `k` receives the
captured groups, the new previous character and the remaining input.  The
priority order of alternatives reproduces CPython's leftmost/backtracking
semantics.  The recursion is structural on `fuel` (one unit per recursion
level) so that the kernel can evaluate it; callers pass a fuel that dominates
the maximal backtracking depth of the embedded patterns, which all consume at
least one character per star iteration. -/
def mat : Nat → RE → Option Char → List Char → Groups →
    (Groups → Option Char → List Char → Option (Groups × List Char)) →
    Option (Groups × List Char)
  | 0, _, _, _, _, _ => none
  | fuel + 1, re, prev, s, g, k =>
    match re with
    | .eps => k g prev s
    | .cls p =>
      match s with
      | [] => none
      | c :: r => if p c then k g (some c) r else none
    | .seq a b => mat fuel a prev s g (fun g' p' s' => mat fuel b p' s' g' k)
    | .alt a b => oalt (mat fuel a prev s g k) (fun _ => mat fuel b prev s g k)
    | .opt r => oalt (mat fuel r prev s g k) (fun _ => k g prev s)
    | .starG r =>
      oalt
        (mat fuel r prev s g (fun g' p' s' =>
          if s'.length < s.length then mat fuel (.starG r) p' s' g' k
          else k g' p' s'))
        (fun _ => k g prev s)
    | .starL r =>
      oalt (k g prev s)
        (fun _ => mat fuel r prev s g (fun g' p' s' =>
          if s'.length < s.length then mat fuel (.starL r) p' s' g' k
          else none))
    | .grp n r =>
      mat fuel r prev s g (fun g' p' s' =>
        k ((n, s.take (s.length - s'.length)) :: g') p' s')
    | .look r =>
      match mat fuel r prev s g (fun g' p' s' => some (g', s')) with
      | some (g', _) => k g' prev s
      | none => none
    | .eos =>
      match s with
      | [] => k g prev s
      | _ :: _ => none
    | .wordB =>
      if isWordO prev != isWordO s.head? then k g prev s else none

/-- Fuel amply dominating the backtracking depth of every embedded pattern on
input `s`. -/
def fuelFor (s : List Char) : Nat := (s.length + 4) * 600

/-- Try to match `re` at the start of `s` (with preceding character `prev`).
Returns the groups and the input remaining after the match. -/
def matchHere (re : RE) (prev : Option Char) (s : List Char) :
    Option (Groups × List Char) :=
  mat (fuelFor s) re prev s [] (fun g _ r => some (g, r))

/-- Python `re.search`: leftmost match.  Returns
`(match.start(), match.end(), groups)`. -/
def searchAux (re : RE) (total : Nat) :
    Option Char → List Char → Nat → Option (Nat × Nat × Groups)
  | prev, s, i =>
    match matchHere re prev s with
    | some (g, r) => some (i, total - r.length, g)
    | none =>
      match s with
      | [] => none
      | c :: rest => searchAux re total (some c) rest (i + 1)

def search (re : RE) (s : List Char) : Option (Nat × Nat × Groups) :=
  searchAux re s.length none s 0

/-- Replacement templates: literal pieces and group references (`\1`, `\2`…). -/
inductive Piece where
  | str : List Char → Piece
  | gref : Nat → Piece

abbrev Tmpl := List Piece

def render (t : Tmpl) (g : Groups) : List Char :=
  match t with
  | [] => []
  | .str cs :: rest => cs ++ render rest g
  | .gref n :: rest => getGroup g n ++ render rest g

/-- Python `re.sub`: replace every non-overlapping leftmost match, scanning the
original string left to right.  (All embedded patterns match at least one
character, so the zero-width case below never fires on them.)  `fuel ≥ s.length`
makes the scan exact; the recursion is structural on `fuel` so that the kernel
can evaluate it. -/
def subAll : Nat → RE → Tmpl → Option Char → List Char → List Char
  | 0, _, _, _, s => s
  | fuel + 1, re, t, prev, s =>
    match matchHere re prev s with
    | some (g, r) =>
      if r.length < s.length then
        let consumed := s.take (s.length - r.length)
        render t g ++ subAll fuel re t consumed.getLast? r
      else
        match s with
        | [] => render t g
        | c :: rest => render t g ++ c :: subAll fuel re t (some c) rest
    | none =>
      match s with
      | [] => []
      | c :: rest => c :: subAll fuel re t (some c) rest

/-- `re.sub` with ample fuel for the input. -/
def sub (re : RE) (t : Tmpl) (s : List Char) : List Char :=
  subAll (s.length + 1) re t none s

/-- `re.search` with ample fuel for the input. -/
def searchF (re : RE) (s : List Char) : Option (Nat × Nat × Groups) :=
  search re s

-- Pattern-building helpers, used to transcribe the Python pattern literals.

/-- One case-sensitive literal character. -/
def ch (c : Char) : RE := .cls (fun x => x = c)

/-- One case-insensitive literal character (`re.IGNORECASE`). -/
def chCI (c : Char) : RE := .cls (fun x => Py.lowerC x = Py.lowerC c)

def seqAll (l : List RE) : RE := l.foldr .seq .eps

/-- Case-sensitive literal string. -/
def lit (s : String) : RE := seqAll (s.data.map ch)

/-- Case-insensitive literal string (`re.IGNORECASE`). -/
def litCI (s : String) : RE := seqAll (s.data.map chCI)

/-- `\s*` -/
def wsS : RE := .starG (.cls Py.isSpace)

/-- `\s+` -/
def wsP : RE := .seq (.cls Py.isSpace) (.starG (.cls Py.isSpace))

/-- lazy `+?` over a class -/
def plusL (p : Char → Bool) : RE := .seq (.cls p) (.starL (.cls p))

/-- greedy `+` over a class -/
def plusG (p : Char → Bool) : RE := .seq (.cls p) (.starG (.cls p))

/-- `.` : any character except newline. -/
def anyC (c : Char) : Bool := c != '\n'

/-- `['"]` -/
def quoteC : RE := .cls (fun c => c = '\'' || c = '"')

end Rex

/-! ## `src/expression_translator.py` -/

namespace ExpressionTranslator

open Rex

/-- `_split_function_args` (expression_translator.py lines 449–492): split at
commas that are at parenthesis depth zero and outside single/double quotes.
`curr` is `current_arg`; the final argument is appended only when non-empty. -/
def splitArgsAux (cs : List Char) (curr : List Char) (depth : Int)
    (inS inD : Bool) : List (List Char) :=
  match cs with
  | [] => if curr.isEmpty then [] else [curr]
  | c :: rest =>
    if c = '\'' && !inD then splitArgsAux rest (curr ++ [c]) depth (!inS) inD
    else if c = '"' && !inS then splitArgsAux rest (curr ++ [c]) depth inS (!inD)
    else if c = '(' && !inS && !inD then splitArgsAux rest (curr ++ [c]) (depth + 1) inS inD
    else if c = ')' && !inS && !inD then splitArgsAux rest (curr ++ [c]) (depth - 1) inS inD
    else if c = ',' && depth = 0 && !inS && !inD then curr :: splitArgsAux rest [] depth inS inD
    else splitArgsAux rest (curr ++ [c]) depth inS inD

def split_function_args (text : List Char) : List (List Char) :=
  splitArgsAux text [] 0 false false

/-- `_find_last_arg_separator` (lines 578–613): scan from the end for the last
top-level comma.  The list argument is the reversed text; `i` is the index in
the original text.  Quote toggles happen before the paren/comma check, exactly
as in the source (`elif` means the `"` branch sees the old single-quote
state). -/
def findLastSepAux (cs : List Char) (i : Nat) (depth : Int) (inS inD : Bool) :
    Option Nat :=
  match cs with
  | [] => none
  | c :: rest =>
    let inS' := if c = '\'' && !inD then !inS else inS
    let inD' := if !(c = '\'' && !inD) && c = '"' && !inS then !inD else inD
    if !inS' && !inD' then
      let depth' := if c = ')' then depth + 1 else if c = '(' then depth - 1 else depth
      if c = ',' && depth' = 0 then some i
      else findLastSepAux rest (i - 1) depth' inS' inD'
    else findLastSepAux rest (i - 1) depth inS' inD'

def find_last_arg_separator (text : List Char) : Option Nat :=
  findLastSepAux text.reverse (text.length - 1) 0 false false

/-- `_initialize_operator_mappings` (lines 171–194), each pattern transcribed:
`\bAND\b → &&`, `\bOR\b → ||`, `\bNOT\b → !`, `<> → !=`, `=== → ==`
(applied case-sensitively, as in the source). -/
def operator_mappings : List (RE × Tmpl) :=
  [ (seqAll [.wordB, lit "AND", .wordB], [.str "&&".data]),
    (seqAll [.wordB, lit "OR", .wordB], [.str "||".data]),
    (seqAll [.wordB, lit "NOT", .wordB], [.str "!".data]),
    (lit "<>", [.str "!=".data]),
    (lit "===", [.str "==".data]) ]

def applyOperatorMappings (s : List Char) : List Char :=
  operator_mappings.foldl (fun acc p => Rex.sub p.1 p.2 acc) s

/-- The concatenation operand of `_handle_concatenation` (line 629):
`['\"].*?['\"]|[\w\.]+(?:\([^)]*\))?`. -/
def concatOperand : RE :=
  .alt (seqAll [quoteC, .starL (.cls anyC), quoteC])
    (seqAll [plusG (fun c => Py.isWord c || c = '.'),
      .opt (seqAll [ch '(', .starG (.cls (fun c => c != ')')), ch ')'])])

def concatPat : RE := seqAll [.grp 1 concatOperand, wsS, lit "||", wsS, .grp 2 concatOperand]

def concatTmpl : Tmpl := [.str "concat(".data, .gref 1, .str ", ".data, .gref 2, .str ")".data]

/-- `_handle_concatenation` (lines 615–643): repeatedly rewrite `a || b` to
`concat(a, b)` while `||` remains, at most 20 iterations. -/
def handle_concatenation : Nat → List Char → List Char
  | 0, s => s
  | fuel + 1, s =>
    if Py.isSubstr "||".data s then
      if (Rex.searchF concatPat s).isSome then
        handle_concatenation fuel (Rex.sub concatPat concatTmpl s)
      else s
    else s

/-- The comparison pattern of `_convert_comparison_operators` (line 654):
`([^\s=!<>]+)\s*=\s*([^\s=][^=]*?)(?=\s*(?:&&|\|\||,|\)|$))`. -/
def cmpPat : RE :=
  seqAll
    [.grp 1 (plusG (fun c => !Py.isSpace c && c != '=' && c != '!' && c != '<' && c != '>')),
     wsS, ch '=', wsS,
     .grp 2 (.seq (.cls (fun c => !Py.isSpace c && c != '=')) (.starL (.cls (fun c => c != '=')))),
     .look (seqAll [wsS, .alt (lit "&&") (.alt (lit "||") (.alt (ch ',') (.alt (ch ')') .eos)))])]

def cmpTmpl : Tmpl := [.gref 1, .str " == ".data, .gref 2]

/-- `_convert_comparison_operators` (lines 645–658). -/
def convert_comparison_operators (s : List Char) : List Char :=
  Rex.sub cmpPat cmpTmpl s

/-- Per-argument processing inside `_translate_decode` (lines 337–348):
concatenation, then operator mappings, then comparison conversion. -/
def processDecodeArg (a : List Char) : List Char :=
  convert_comparison_operators (applyOperatorMappings (handle_concatenation 20 a))

/-- The balanced-parenthesis walk used by `_translate_decode`,
`_translate_add_to_date` and `_translate_get_date_part` (e.g. lines 312–325):
`cs` is the input suffix starting at index `i` (just after the opening paren),
`count` the current depth (quotes are not respected, as in the source).
Returns the index of the matching `)` or `none` when unbalanced. -/
def findClose (cs : List Char) (i : Nat) (count : Nat) : Option Nat :=
  match cs with
  | [] => none
  | c :: rest =>
    let count' := if c = '(' then count + 1 else if c = ')' then count - 1 else count
    if count' = 0 then some i else findClose rest (i + 1) count'

def decodeHead : RE := seqAll [litCI "DECODE", wsS, ch '(']

/-- `_translate_decode` (lines 286–366). -/
def translate_decode : Nat → List Char → List Char
  | 0, s => s
  | fuel + 1, s =>
    match Rex.searchF decodeHead s with
    | none => s
    | some (start, stop, _) =>
      let parenStart := stop - 1
      match findClose (s.drop (parenStart + 1)) (parenStart + 1) 1 with
      | none => s
      | some parenEnd =>
        let content := (s.take parenEnd).drop (parenStart + 1)
        let args := split_function_args content
        if args.length < 3 then s
        else
          match args.map processDecodeArg with
          | [] => s
          | a0 :: rest =>
            let args' := if Py.upper (Py.strip a0) = "TRUE".data then rest else a0 :: rest
            let caseE := "case(".data ++ List.intercalate ", ".data args' ++ ")".data
            translate_decode fuel (s.take start ++ caseE ++ s.drop (parenEnd + 1))

/-- The second argument check of `_translate_add_to_date` (line 428) /
`_translate_get_date_part` (line 557): `^['\"]([A-Z]+)['\"]$`, with
`re.IGNORECASE` in the first case (`upperOnly = false`) and without it in the
second (`upperOnly = true`).  Returns the letters between the quotes. -/
def quotedLetters (upperOnly : Bool) (u : List Char) : Option (List Char) :=
  match u with
  | [] => none
  | q1 :: rest =>
    if !(q1 = '\'' || q1 = '"') then none
    else
      match rest.getLast? with
      | none => none
      | some q2 =>
        if !(q2 = '\'' || q2 = '"') then none
        else
          let mid := rest.dropLast
          if mid.isEmpty then none
          else if mid.all (fun c => if upperOnly then c.isUpper else c.isAlpha) then some mid
          else none

def time_unit_map : List (String × String) :=
  [("DD", "addDays"), ("MM", "addMonths"), ("YYYY", "addYears"), ("YY", "addYears"),
   ("Y", "addYears"), ("HH", "addHours"), ("MI", "addMinutes"), ("SS", "addSeconds")]

def addHead : RE :=
  .alt (seqAll [litCI "ADD_", .opt (litCI "TO_"), litCI "DATE", wsS, ch '('])
    (seqAll [litCI "ADD_toDate", wsS, ch '('])

/-- `_translate_add_to_date` (lines 368–447). -/
def translate_add_to_date : Nat → List Char → List Char
  | 0, s => s
  | fuel + 1, s =>
    match Rex.searchF addHead s with
    | none => s
    | some (start, stop, _) =>
      let parenStart := stop - 1
      match findClose (s.drop (parenStart + 1)) (parenStart + 1) 1 with
      | none => s
      | some parenEnd =>
        let content := (s.take parenEnd).drop (parenStart + 1)
        match split_function_args content with
        | [a1, a2, a3] =>
          let dateArg := Py.strip a1
          let unitArg := Py.strip a2
          let numArg := Py.strip a3
          match quotedLetters false unitArg with
          | none => s
          | some letters =>
            match time_unit_map.find? (fun p => p.1.data = Py.upper letters) with
            | none => s
            | some p =>
              let repl := p.2.data ++ "(".data ++ dateArg ++ ", ".data ++ numArg ++ ")".data
              translate_add_to_date fuel (s.take start ++ repl ++ s.drop (parenEnd + 1))
        | _ => s

def date_part_map : List (String × String) :=
  [("DD", "dayOfMonth"), ("MM", "month"), ("YYYY", "year"), ("YY", "year"), ("Y", "year"),
   ("DDD", "dayOfYear"), ("WW", "weekOfYear"), ("HH", "hour"), ("MI", "minute"), ("SS", "second")]

def gdpHead : RE := seqAll [litCI "GET_DATE_PART", wsS, ch '(']

/-- `_translate_get_date_part` (lines 494–576). -/
def translate_get_date_part : Nat → List Char → List Char
  | 0, s => s
  | fuel + 1, s =>
    match Rex.searchF gdpHead s with
    | none => s
    | some (start, stop, _) =>
      let parenStart := stop - 1
      match findClose (s.drop (parenStart + 1)) (parenStart + 1) 1 with
      | none => s
      | some parenEnd =>
        let content := (s.take parenEnd).drop (parenStart + 1)
        match find_last_arg_separator content with
        | none => s
        | some commaIdx =>
          let arg1 := Py.strip (content.take commaIdx)
          let arg2 := Py.strip (content.drop (commaIdx + 1))
          match quotedLetters true arg2 with
          | none => s
          | some letters =>
            match date_part_map.find? (fun p => p.1.data = Py.upper letters) with
            | none => s
            | some p =>
              let repl := p.2.data ++ "(".data ++ arg1 ++ ")".data
              translate_get_date_part fuel (s.take start ++ repl ++ s.drop (parenEnd + 1))

/-- `([^)]+?)` -/
def notP (c : Char) : Bool := c != ')'

/-- `([^,]+?)` -/
def notC (c : Char) : Bool := c != ','

/-- `([^'\"]+?)` -/
def notQ (c : Char) : Bool := c != '\'' && c != '"'

/-- `NAME\s*\(\s*([^)]+?)\s*\)` → `repl(\1)` -/
def fn1 (name repl : String) : RE × Tmpl :=
  (seqAll [litCI name, wsS, ch '(', wsS, .grp 1 (plusL notP), wsS, ch ')'],
   [.str (repl ++ "(").data, .gref 1, .str ")".data])

/-- `NAME\s*\(\s*([^,]+?)\s*,\s*([^)]+?)\s*\)` → `repl(\1, \2)` -/
def fn2 (name repl : String) : RE × Tmpl :=
  (seqAll [litCI name, wsS, ch '(', wsS, .grp 1 (plusL notC), wsS, ch ',', wsS,
    .grp 2 (plusL notP), wsS, ch ')'],
   [.str (repl ++ "(").data, .gref 1, .str ", ".data, .gref 2, .str ")".data])

/-- `NAME\s*\(\s*([^,]+?)\s*,\s*([^,]+?)\s*,\s*([^)]+?)\s*\)` → `repl(\1, \2, \3)` -/
def fn3 (name repl : String) : RE × Tmpl :=
  (seqAll [litCI name, wsS, ch '(', wsS, .grp 1 (plusL notC), wsS, ch ',', wsS,
    .grp 2 (plusL notC), wsS, ch ',', wsS, .grp 3 (plusL notP), wsS, ch ')'],
   [.str (repl ++ "(").data, .gref 1, .str ", ".data, .gref 2, .str ", ".data,
    .gref 3, .str ")".data])

/-- `GET_DATE_PART\s*\(\s*(.+?)\s*,\s*['"]UNIT['"]\s*\)` → `repl(\1)` -/
def gdpP (unit repl : String) : RE × Tmpl :=
  (seqAll [litCI "GET_DATE_PART", wsS, ch '(', wsS, .grp 1 (plusL anyC), wsS, ch ',', wsS,
    quoteC, litCI unit, quoteC, wsS, ch ')'],
   [.str (repl ++ "(").data, .gref 1, .str ")".data])

/-- `NAME\s*\(\s*([^,]+?)\s*,\s*['"]UNIT['"]\s*,\s*([^)]+?)\s*\)` → `repl(\1, \2)` -/
def atdP (name unit repl : String) : RE × Tmpl :=
  (seqAll [litCI name, wsS, ch '(', wsS, .grp 1 (plusL notC), wsS, ch ',', wsS,
    quoteC, litCI unit, quoteC, wsS, ch ',', wsS, .grp 2 (plusL notP), wsS, ch ')'],
   [.str (repl ++ "(").data, .gref 1, .str ", ".data, .gref 2, .str ")".data])

/-- `TO_CHAR\s*\(\s*([^,]+?)\s*,\s*['"]FMT['"]\s*\)` with a fixed replacement
around `\1`. -/
def toCharFixed (fmt pre post : String) : RE × Tmpl :=
  (seqAll [litCI "TO_CHAR", wsS, ch '(', wsS, .grp 1 (plusL notC), wsS, ch ',', wsS,
    quoteC, litCI fmt, quoteC, wsS, ch ')'],
   [.str pre.data, .gref 1, .str post.data])

/-- `TO_DATE\s*\(\s*([^,]+?)\s*,\s*['"]FMT['"]\s*\)` → `toDate(\1, 'DST')` -/
def toDateFixed (fmt dst : String) : RE × Tmpl :=
  (seqAll [litCI "TO_DATE", wsS, ch '(', wsS, .grp 1 (plusL notC), wsS, ch ',', wsS,
    quoteC, litCI fmt, quoteC, wsS, ch ')'],
   [.str "toDate(".data, .gref 1, .str (", '" ++ dst ++ "')").data])

/-- `NAME\s*\(\s*([^,]+?)\s*,\s*['"]([^'\"]+?)['"]\s*\)` → `repl(\1, '\2')` -/
def fmt2 (name repl : String) : RE × Tmpl :=
  (seqAll [litCI name, wsS, ch '(', wsS, .grp 1 (plusL notC), wsS, ch ',', wsS,
    quoteC, .grp 2 (plusL notQ), quoteC, wsS, ch ')'],
   [.str (repl ++ "(").data, .gref 1, .str ", '".data, .gref 2, .str "')".data])

/-- `NAME\s*\(\s*\)` → `repl` (literal replacement, no groups). -/
def callP (name repl : String) : RE × Tmpl :=
  (seqAll [litCI name, wsS, ch '(', wsS, ch ')'], [.str repl.data])

/-- `_initialize_function_patterns` (lines 25–169), in source order. -/
def function_patterns : List (RE × Tmpl) :=
  [ -- GET_DATE_PART
    gdpP "DD" "dayOfMonth", gdpP "MM" "month", gdpP "YYYY" "year", gdpP "YY" "year",
    gdpP "Y" "year", gdpP "DDD" "dayOfYear", gdpP "WW" "weekOfYear", gdpP "HH" "hour",
    gdpP "MI" "minute", gdpP "SS" "second",
    -- ADD_TO_DATE
    atdP "ADD_TO_DATE" "DD" "addDays", atdP "ADD_TO_DATE" "MM" "addMonths",
    atdP "ADD_TO_DATE" "YYYY" "addYears", atdP "ADD_TO_DATE" "YY" "addYears",
    atdP "ADD_TO_DATE" "Y" "addYears", atdP "ADD_TO_DATE" "HH" "addHours",
    atdP "ADD_TO_DATE" "MI" "addMinutes", atdP "ADD_TO_DATE" "SS" "addSeconds",
    -- ADD_toDate variants
    atdP "ADD_toDate" "DD" "addDays", atdP "ADD_toDate" "MM" "addMonths",
    atdP "ADD_toDate" "YYYY" "addYears", atdP "ADD_toDate" "YY" "addYears",
    atdP "ADD_toDate" "Y" "addYears",
    -- LAST_DAY
    fn1 "LAST_DAY" "lastDayOfMonth",
    -- TO_CHAR date formats
    toCharFixed "DAY" "case(dayOfWeek("
      "), 1, 'Sunday', 2, 'Monday', 3, 'Tuesday', 4, 'Wednesday', 5, 'Thursday', 6, 'Friday', 7, 'Saturday')",
    toCharFixed "MONTH" "toString(" ", 'MMMM')",
    toCharFixed "DDD" "dayOfYear(" ")",
    fmt2 "TO_CHAR" "toString",
    -- TO_DATE
    toDateFixed "MM/DD/YYYY" "MM/dd/yyyy", toDateFixed "DD/MM/YYYY" "dd/MM/yyyy",
    toDateFixed "YYYY-MM-DD" "yyyy-MM-dd",
    fmt2 "TO_DATE" "toDate",
    fn1 "TO_DATE" "toDate",
    -- SYSDATE and current date/time
    callP "SYSDATE" "currentTimestamp()",
    (litCI "SYSDATE", [.str "currentTimestamp()".data]),
    callP "CURRENT_DATE" "currentDate()",
    callP "CURRENT_TIMESTAMP" "currentTimestamp()",
    -- string functions
    fn3 "SUBSTR" "substring", fn2 "SUBSTR" "substring",
    fn2 "INSTR" "indexOf",
    fn3 "REPLACE_CHAR" "replace", fn3 "REPLACE" "replace",
    fn2 "CONCAT" "concat",
    fn2 "LTRIM" "ltrim", fn1 "LTRIM" "ltrim",
    fn2 "RTRIM" "rtrim", fn1 "RTRIM" "rtrim",
    fn2 "TRIM" "trim", fn1 "TRIM" "trim",
    fn1 "UPPER" "upper", fn1 "LOWER" "lower",
    fn1 "LENGTH" "length",
    fn3 "LPAD" "lpad", fn3 "RPAD" "rpad",
    -- conversion functions
    fn1 "TO_INTEGER" "toInteger", fn1 "TO_DECIMAL" "toDecimal", fn1 "TO_FLOAT" "toFloat",
    fn1 "TO_CHAR" "toString",
    -- conditional
    fn3 "IIF" "iif",
    -- aggregates
    fn1 "SUM" "sum", fn1 "AVG" "avg", fn1 "COUNT" "count",
    (seqAll [litCI "COUNT", wsS, ch '(', wsS, ch '*', wsS, ch ')'], [.str "count()".data]),
    fn1 "MIN" "min", fn1 "MAX" "max", fn1 "FIRST" "first", fn1 "LAST" "last",
    -- math
    fn2 "ROUND" "round", fn1 "ROUND" "round",
    fn1 "CEIL" "ceil", fn1 "FLOOR" "floor", fn1 "ABS" "abs",
    fn2 "POWER" "power", fn1 "SQRT" "sqrt",
    -- null handling
    fn1 "ISNULL" "isNull", fn1 "IS_NULL" "isNull",
    fn2 "NVL" "coalesce", fn1 "COALESCE" "coalesce" ]

/-- One pass of the pattern table (`translate` line 262–263). -/
def applyPatternsOnce (s : List Char) : List Char :=
  function_patterns.foldl (fun acc p => Rex.sub p.1 p.2 acc) s

/-- The fixed-point iteration of `translate` step 2 (lines 258–267): apply the
table, stop when unchanged, at most 10 passes. -/
def apply_function_patterns : Nat → List Char → List Char
  | 0, s => s
  | fuel + 1, s =>
    let s' := applyPatternsOnce s
    if s' = s then s' else apply_function_patterns fuel s'

/-- `_initialize_forbidden_functions` (lines 196–216). -/
def forbidden_functions : List String :=
  ["GET_DATE_PART(", "ADD_TO_DATE(", "ADD_toDate(", "LAST_DAY(", "TO_CHAR(",
   "TO_DATE(", "REPLACE_CHAR(", "INSTR(", "DECODE(", " AND ", " OR ", " NOT "]

/-- `_validate_translation` (lines 660–680): the first forbidden token whose
upper-case form is a substring of the upper-cased translation, if any.  A
`some` result is the `ValueError` raised by the source. -/
def validate_translation (t : List Char) : Option String :=
  forbidden_functions.find? (fun f => Py.isSubstr (Py.upper f.data) (Py.upper t))

/-- `\b(IN|OUT)_` (line 248), case-sensitive, replaced by the empty string. -/
def inOutPat : RE := seqAll [.wordB, .grp 1 (.alt (lit "IN") (lit "OUT")), ch '_']

/-- The guard of `translate` (line 231): `not expression or not expression.strip()`. -/
def isBlank (e : String) : Bool := e.data.isEmpty || (Py.strip e.data).isEmpty

/-- All rewrite passes of `translate` (lines 234–279), in source order:
strip, whitespace normalization, `IN_`/`OUT_` stripping, DECODE,
ADD_TO_DATE, GET_DATE_PART, the pattern-table fixed point, concatenation
(guarded on `'||' in translated and 'DECODE' not in expression.upper()`),
operator mappings, comparison conversion. -/
def rewritten (e : String) : List Char :=
  let t := Py.strip e.data
  let t := Rex.sub wsP [.str " ".data] t
  let t := Py.strip t
  let t := Rex.sub inOutPat [] t
  let t := translate_decode 20 t
  let t := translate_add_to_date 20 t
  let t := translate_get_date_part 20 t
  let t := apply_function_patterns 10 t
  let t :=
    if Py.isSubstr "||".data t && !Py.isSubstr "DECODE".data (Py.upper e.data) then
      handle_concatenation 20 t
    else t
  let t := applyOperatorMappings t
  convert_comparison_operators t

/-- `translate` (lines 218–284): the blank guard, the rewrite passes and the
final forbidden-token validation.  `Except.error tok` is the `ValueError`
raised by `_validate_translation` for token `tok`. -/
def translate (e : String) : Except String String :=
  if isBlank e then .ok e
  else
    let t := rewritten e
    match validate_translation t with
    | some f => .error f
    | none => .ok (String.mk t)

end ExpressionTranslator

/-! ## `src/script_generator.py` -/

namespace ADFScriptGenerator

/-- One entry of a `lookupConditions` list (`leftColumn` / `rightColumn`). -/
structure LookupCond where
  leftColumn : String
  rightColumn : String
deriving DecidableEq

/-- The slice of a translated-transformation dictionary read by the embedded
functions: `name`, `type`, the resolved inputs, the lookup configuration and
the column-disambiguation map (a `dict`, embedded as an association list in
insertion order). -/
structure Trans where
  name : String
  ttype : String
  mainInput : Option String := none
  leftInput : Option String := none
  rightInput : Option String := none
  lookupConditions : List LookupCond := []
  lookupDataset : Option String := none
  columnDisambiguation : List (String × String) := []
  sourceType : String := "Database"
deriving DecidableEq

/-- Python `dict.update`: existing keys are overwritten in place, new keys are
appended in order. -/
def dictUpdate (m n : List (String × String)) : List (String × String) :=
  (m.map fun p =>
    match n.find? (fun q => q.1 = p.1) with
    | some q => (p.1, q.2)
    | none => p) ++
  n.filter (fun q => (m.find? (fun p => p.1 = q.1)).isNone)

/-- Python `sorted(items, key=lambda x: len(x[0]), reverse=True)`
(script_generator.py line 105): stable sort by strictly decreasing key length.
`List.insertionSort` is a stable sort, so ties keep dict insertion order, as in
CPython. -/
def sortByKeyLenDesc (m : List (String × String)) : List (String × String) :=
  List.insertionSort (fun a b => b.1.length ≤ a.1.length) m

/-- `\b` between two adjacent characters (out of range counts as non-word). -/
def wordBoundAt (a b : Option Char) : Bool := Rex.isWordO a != Rex.isWordO b

/-- Scanner embedding `re.sub(r'(?<!@)\b' + re.escape(old) + r'\b', new, s)`
(line 110–112) for a non-empty literal `old = oc :: orest`: replace every
leftmost non-overlapping occurrence of `old` that sits between word boundaries
and whose preceding character is not `@`; scanning continues on the original
characters after each match, exactly as `re.sub` does.  Structural fuel
(`≥ s.length`) keeps the definition kernel-evaluable. -/
def subWordAux (oc : Char) (orest : List Char) (new : List Char) :
    Nat → Option Char → List Char → List Char
  | 0, _, s => s
  | fuel + 1, prev, s =>
    match s with
    | [] => []
    | c :: rest =>
      let old := oc :: orest
      if old.isPrefixOf (c :: rest) && wordBoundAt prev (some c) &&
          wordBoundAt old.getLast? (rest.drop orest.length).head? &&
          prev != some '@' then
        new ++ subWordAux oc orest new fuel old.getLast? (rest.drop orest.length)
      else
        c :: subWordAux oc orest new fuel (some c) rest

/-- `re.sub((?<!@)\b old \b, new, s)` for a literal `old`.  (The embedded
disambiguation keys are never empty; an empty `old` is left unreplaced.) -/
def subWordNotAt (old new : String) (s : List Char) : List Char :=
  match old.data with
  | [] => s
  | oc :: orest => subWordAux oc orest new.data (s.length + 1) none s

/-- `_apply_column_disambiguation` (lines 70–118): union the
`columnDisambiguation` maps of the already-processed `Lookup` transformations,
then substitute longest-original-first with whole-identifier, not-after-`@`
matching.  (The source guards each `re.sub` with an `re.search`; an
occurrence-free substitution is the identity, so the guard is semantically
transparent.) -/
def apply_column_disambiguation (expression : List Char)
    (current_transformations : List Trans) : List Char :=
  let dmap := current_transformations.foldl
    (fun m t => if t.ttype = "Lookup" then dictUpdate m t.columnDisambiguation else m) []
  if dmap.isEmpty then expression
  else (sortByKeyLenDesc dmap).foldl (fun e p => subWordNotAt p.1 p.2 e) expression

/-- `strip_numeric_suffix` (lines 941–946), embedding
`re.match(r'^(.+?)\d+$', col)`: the lazily-shortest non-empty prefix whose
complement is a non-empty run of digits, i.e. drop the trailing digit run but
keep at least one character. -/
def strip_numeric_suffix (col : String) : String :=
  let d := (col.data.reverse.takeWhile Char.isDigit).length
  if d = 0 then col
  else String.mk (col.data.take (max 1 (col.data.length - d)))

/-- The condition text `main@right == lkp@left` emitted for one lookup
condition (lines 959 and 968), with the numeric suffixes stripped and the
operand order inverted relative to the source convention. -/
def lookupCondText (mainStream lookupStream : String) (c : LookupCond) : String :=
  mainStream ++ "@" ++ strip_numeric_suffix c.rightColumn ++ " == " ++
    lookupStream ++ "@" ++ strip_numeric_suffix c.leftColumn

/-- `_generate_lookup_script` (lines 879–978). -/
def generate_lookup_script (trans : Trans) (previous_step : String) : List String :=
  let lookup_dataset := trans.lookupDataset.getD "UnknownLookupSource"
  let main_stream :=
    match trans.mainInput with
    | some m => if m ≠ "" then m else previous_step
    | none => previous_step
  let head :=
    match trans.lookupConditions with
    | [] => [main_stream ++ ", " ++ lookup_dataset ++ " lookup("]
    | c :: cs =>
      (main_stream ++ ", " ++ lookup_dataset ++ " lookup(" ++
        lookupCondText main_stream lookup_dataset c ++ ",") ::
      cs.map (fun c' => "     " ++ lookupCondText main_stream lookup_dataset c' ++ ",")
  head ++ ["     multiple: false,", "     pickup: 'any')~> " ++ trans.name]

/-- The deduplicated dependency set of one transformation
(lines 1321–1335): the non-empty values of `mainInput`, `leftInput`,
`rightInput`.  (A Python `set`; first-occurrence order — the set's iteration
order only distributes appends over distinct per-dependency adjacency lists,
so it does not affect any observable result.) -/
def depsOf (t : Trans) : List String :=
  Py.dedupFirst (([t.mainInput, t.leftInput, t.rightInput].filterMap id).filter (fun s => s ≠ ""))

def namesOf (ts : List Trans) : List String := ts.map (fun t => t.name)

/-- `graph[dep]` (lines 1337–1341): the names of the transformations that
depend on `dep`, in declaration order. -/
def graphAdj (ts : List Trans) (dep : String) : List String :=
  (ts.filter (fun t => dep ∈ depsOf t)).map (fun t => t.name)

/-- `in_degree[n]`: one increment per in-dataflow dependency of every
transformation named `n`. -/
def indegInit (ts : List Trans) (n : String) : Int :=
  (((ts.filter (fun t => t.name = n)).map
    (fun t => ((depsOf t).filter (fun d => d ∈ namesOf ts)).length)).sum : Nat)

/-- `queue.sort()` on strings: Python sorts lexicographically by code point. -/
def sortQueue (q : List String) : List String :=
  List.insertionSort (fun a b => Py.strLe a.data b.data = true) q

/-- The neighbor-decrement step of Kahn's algorithm (lines 1353–1357). -/
def decStep (p : (String → Int) × List String) (nb : String) : (String → Int) × List String :=
  let v := p.1 nb - 1
  let d' : String → Int := fun x => if x = nb then v else p.1 x
  if v = 0 then (d', p.2 ++ [nb]) else (d', p.2)

/-- The Kahn loop (lines 1344–1357): sort the queue, pop the least name,
emit it, decrement its neighbors.  Each iteration emits exactly one name, so
`fuel = number of nodes` is exact. -/
def kahnLoop (ts : List Trans) : Nat → List String → (String → Int) → List String → List String
  | 0, _, _, acc => acc
  | fuel + 1, queue, indeg, acc =>
    match sortQueue queue with
    | [] => acc
    | node :: rest =>
      let st := (graphAdj ts node).foldl decStep (indeg, rest)
      kahnLoop ts fuel st.2 st.1 (acc ++ [node])

/-- `_topological_sort_transformations` (lines 1308–1366). -/
def topological_sort_transformations (ts : List Trans) : List Trans :=
  let names := namesOf ts
  let queue0 := (Py.dedupFirst names).filter (fun n => indegInit ts n = 0)
  let ordered := kahnLoop ts names.length queue0 (indegInit ts) []
  if ordered.length ≠ ts.length then ts
  else ordered.filterMap (fun n => ts.reverse.find? (fun t => t.name = n))

/-- The slice of a translated structure consumed by the sink-emission part of
`generate_dataflow`: source names, transformations, sink names. -/
structure DataflowStructure where
  sources : List String
  transformations : List Trans
  sinks : List String
deriving DecidableEq

/-- `_generate_sink_script` (lines 1030–1061). -/
def generate_sink_script (sink : String) (previous_step : String) : List String :=
  [previous_step ++ " sink(",
   "\tallowSchemaDrift: true,",
   "\tvalidateSchema: false,",
   "\tskipDuplicateMapInputs: true,",
   "\tskipDuplicateMapOutputs: true) ~> " ++ sink]

/-- The source loop of `generate_dataflow` (lines 203–242): a duplicate source
name raises `ValueError`; orphan sources (no transformations and no sinks, per
`_validate_source_topology`) are skipped.  Returns the names of the accepted
sources in order. -/
def buildSourcesAux (valid : Bool) : List String → List String → Except String (List String)
  | [], acc => .ok acc
  | s :: rest, acc =>
    if s ∈ acc then .error s
    else if !valid then buildSourcesAux valid rest acc
    else buildSourcesAux valid rest (acc ++ [s])

/-- The Flat-File-lookup source additions (lines 244–272). -/
def flatFileAdd (ts : List Trans) (srcNames : List String) : List String :=
  ts.foldl
    (fun acc t =>
      if t.ttype = "Lookup" || t.ttype = "lookup" then
        match t.lookupDataset with
        | some ld =>
          if t.sourceType = "Flat File" && ld ≠ "" && !(ld ∈ acc) then acc ++ [ld] else acc
        | none => acc
      else acc)
    srcNames

/-- The `previous_step` threading of the transformation loop
(lines 276–315): transformations named like a source and transformations of
type `Source Qualifier`/`source`/`Source` are skipped without updating
`previous_step`. -/
def prevStepFold (srcNames : List String) (ordered : List Trans) (init : Option String) :
    Option String :=
  ordered.foldl
    (fun prev t =>
      if t.name ∈ srcNames then prev
      else if t.ttype = "Source Qualifier" || t.ttype = "source" || t.ttype = "Source" then prev
      else some t.name)
    init

/-- Python `f"{x}"` where `x` may be `None`. -/
def optStr : Option String → String
  | some s => s
  | none => "None"

/-- The single `last_step` of `generate_dataflow` (lines 276–319): the name of
the last non-skipped transformation in topological order, else the first
source name (`previous_step` starts as `source_names[0]`, lines 276–278). -/
def lastStepOf (trs : List Trans) (srcAll : List String) : Option String :=
  match prevStepFold srcAll (topological_sort_transformations trs) srcAll.head? with
  | some p => some p
  | none => srcAll.head?

/-- The sink-emission slice of `generate_dataflow` (lines 197–333): build the
source list, append Flat-File lookup sources, topologically order the
transformations, thread `previous_step` through the non-skipped ones, and emit
one sink script block per sink with the resulting `last_step` (line 319 and
330–333).  `Except.error` is the duplicate-source `ValueError` of line 217. -/
def dataflowSinkBlocks (st : DataflowStructure) : Except String (List (List String)) :=
  match buildSourcesAux (!(st.transformations.isEmpty && st.sinks.isEmpty)) st.sources [] with
  | .error s => .error s
  | .ok srcs =>
    let srcAll := flatFileAdd st.transformations srcs
    .ok (st.sinks.map (fun snk => generate_sink_script snk (optStr (lastStepOf st.transformations srcAll))))

end ADFScriptGenerator

/-! ## `src/translator.py` -/

namespace Translator

/-- The slice of a parsed `Transformation` read by
`_resolve_source_qualifier_to_source`: its name and type string. -/
structure TransMeta where
  name : String
  ttype : String
deriving DecidableEq

/-- `_resolve_source_qualifier_to_source` (translator.py lines 154–205).
`cm` is `self.connection_map` (`to_instance → [from_instance]`), `transes` the
mapping's transformations, `sources` its source names.  The source walks the
transformation list for the first name match (then breaks); only a
`Source Qualifier` resolves, to the first of its connection-map inputs that is
a source name; everything else falls back to the original name. -/
def resolve_source_qualifier_to_source (cm : String → List String)
    (transes : List TransMeta) (sources : List String) (t : String) : String :=
  match transes.find? (fun tr => tr.name = t) with
  | some tr =>
    if tr.ttype = "Source Qualifier" then
      match (cm t).find? (fun i => i ∈ sources) with
      | some s => s
      | none => t
    else t
  | none => t

/-- The `leftInput`/`rightInput` fields and the appended error messages
produced by `_translate_joiner` (lines 470–521). -/
structure JoinerResult where
  leftInput : Option String
  rightInput : Option String
  errors : List String
deriving DecidableEq

/-- The input-resolution portion of `_translate_joiner` (lines 470–521):
deduplicate the joiner's connection-map inputs preserving first-occurrence
order (`dict.fromkeys`), resolve the first two through the source-qualifier
rule, and on an inconsistent resolution (equal resolved names from distinct
raw names) record the error and fall back to the raw names. -/
def translate_joiner_inputs (cm : String → List String) (transes : List TransMeta)
    (sources : List String) (joinerName : String) : JoinerResult :=
  let inputs := cm joinerName
  let uniq := Py.dedupFirst inputs
  match uniq with
  | lraw :: rraw :: _ =>
    let l := resolve_source_qualifier_to_source cm transes sources lraw
    let r := resolve_source_qualifier_to_source cm transes sources rraw
    if l = r && lraw != rraw then
      let e := "ERROR CRITICO: Joiner '" ++ joinerName ++ "' tiene inputs diferentes (" ++
        lraw ++ " vs " ++ rraw ++ ") pero ambos se resolvieron al mismo stream: '" ++ l ++ "'."
      if lraw != rraw then
        { leftInput := some lraw, rightInput := some rraw, errors := [e] }
      else
        { leftInput := some l, rightInput := some r, errors := [e] }
    else
      { leftInput := some l, rightInput := some r, errors := [] }
  | [lraw] =>
    let l := resolve_source_qualifier_to_source cm transes sources lraw
    let e := "ERROR: Joiner '" ++ joinerName ++ "' tiene solo 1 input unico conectado: " ++ lraw
    { leftInput := some l, rightInput := none, errors := [e] }
  | [] =>
    let e := "ERROR CRITICO: Joiner '" ++ joinerName ++ "' no tiene inputs unicos conectados."
    { leftInput := none, rightInput := none, errors := [e] }

end Translator

/-! ## Specification-side predicates -/

namespace ExpressionTranslator

/-- Specification-side top-level comma split, from the claim's words: a comma
is an argument boundary exactly when it occurs at parenthesis depth zero and
outside any single- or double-quoted region (a single quote toggles outside
double quotes, a double quote toggles outside single quotes, and parentheses
count only outside quotes).  Returns the first segment and the remaining
segments, so the full split `specSplit` is never empty and keeps every
segment, including empty ones. -/
def specSplitAux (cs : List Char) (depth : Int) (inS inD : Bool) :
    List Char × List (List Char) :=
  match cs with
  | [] => ([], [])
  | c :: rest =>
    if c = ',' && depth = 0 && !inS && !inD then
      let q := specSplitAux rest depth inS inD
      ([], q.1 :: q.2)
    else
      let inS' := if c = '\'' && !inD then !inS else inS
      let inD' := if c = '"' && !inS then !inD else inD
      let depth' :=
        if c = '(' && !inS && !inD then depth + 1
        else if c = ')' && !inS && !inD then depth - 1
        else depth
      let q := specSplitAux rest depth' inS' inD'
      (c :: q.1, q.2)

/-- The list of top-level comma-separated segments of `text`. -/
def specSplit (text : List Char) : List (List Char) :=
  ((specSplitAux text 0 false false).1) :: (specSplitAux text 0 false false).2

/-- Drop a trailing empty segment (the implementation's
`if current_arg: args.append(...)` keeps interior empties but drops a final
empty argument). -/
def dropTrailingEmpty (l : List (List Char)) : List (List Char) :=
  match l.getLast? with
  | some [] => l.dropLast
  | _ => l

end ExpressionTranslator

namespace ADFScriptGenerator

/-- Specification-side predicate: a whole-identifier occurrence of `old` at
the start of `s` whose preceding character is `prev` — `old` is a prefix of
`s`, there is a word boundary before it and after it, and it is not preceded
by `@`.  (Since `old` is a prefix of `s`, `s.head?` is `old`'s first
character.) -/
def occFrom (prev : Option Char) (s old : List Char) : Prop :=
  old ≠ [] ∧ old.isPrefixOf s = true ∧ wordBoundAt prev s.head? = true ∧
    wordBoundAt old.getLast? (s.drop old.length).head? = true ∧ prev ≠ some '@'

instance occFromDec (prev : Option Char) (s old : List Char) :
    Decidable (occFrom prev s old) := by
  unfold occFrom; infer_instance

/-- Specification-side predicate: `old` has no whole-identifier,
not-`@`-qualified occurrence anywhere in `s` (scanning with preceding
character `prev`). -/
def noOccFrom (prev : Option Char) (s old : List Char) : Prop :=
  match s with
  | [] => True
  | c :: rest => ¬occFrom prev (c :: rest) old ∧ noOccFrom (some c) rest old

instance noOccFromDec : (prev : Option Char) → (s old : List Char) →
    Decidable (noOccFrom prev s old)
  | _, [], _ => .isTrue trivial
  | prev, c :: rest, old =>
    haveI := noOccFromDec (some c) rest old
    by unfold noOccFrom; infer_instance

/-- The in-dataflow dependencies of the node named `n`: the deduplicated
inputs of the (unique, when names are unique) transformation of that name,
restricted to names present in the list. -/
def depsIn (ts : List Trans) (n : String) : List String :=
  match ts.find? (fun t => t.name = n) with
  | some t => (depsOf t).filter (fun d => d ∈ namesOf ts)
  | none => []

/-- Specification-side acyclicity of the dependency graph: every non-empty
set of node names contains a node none of whose in-dataflow dependencies lies
in the set.  (Quantification over the finite powerset keeps it decidable.) -/
def Acyclic (ts : List Trans) : Prop :=
  ∀ S ∈ (namesOf ts).toFinset.powerset, S.Nonempty →
    ∃ x ∈ S, ∀ d ∈ depsIn ts x, d ∉ S

/-- Specification-side: the dependency graph contains a cycle — a non-empty
set of node names each of which has an in-dataflow dependency inside the
set. -/
def HasCycle (ts : List Trans) : Prop :=
  ∃ S ∈ (namesOf ts).toFinset.powerset, S.Nonempty ∧
    ∀ x ∈ S, ∃ d ∈ depsIn ts x, d ∈ S

/-- Specification-side eligibility: the nodes (in declaration order) that are
not yet emitted and all of whose in-dataflow dependencies are emitted. -/
def eligible (ts : List Trans) (emitted : List String) : List String :=
  (namesOf ts).filter (fun n => !(n ∈ emitted) && (depsIn ts n).all (fun d => d ∈ emitted))

/-- Specification-side greedy schedule, from the claim's words: repeatedly
emit the lexicographically least name among the nodes whose in-list
dependencies have all been emitted. -/
def specOrder (ts : List Trans) : Nat → List String → List String
  | 0, _ => []
  | fuel + 1, emitted =>
    match sortQueue (eligible ts emitted) with
    | [] => []
    | m :: _ => m :: specOrder ts fuel (emitted ++ [m])

/-- The loop invariant tying the implementation's Kahn state to the emitted
prefix `acc`:  `acc` is a dependency-closed list of distinct node names,
`indeg` counts each node's not-yet-emitted dependencies, and `queue` holds
exactly the eligible nodes, without duplicates. -/
def KahnInv (ts : List Trans) (queue : List String) (indeg : String → Int)
    (acc : List String) : Prop :=
  acc.Nodup ∧
  (∀ n ∈ acc, n ∈ namesOf ts) ∧
  (∀ n ∈ acc, ∀ d ∈ depsIn ts n, d ∈ acc) ∧
  (∀ n ∈ namesOf ts, indeg n = (((depsIn ts n).filter (fun d => !(d ∈ acc))).length : Int)) ∧
  queue.Nodup ∧
  (∀ n, n ∈ queue ↔ (n ∈ namesOf ts ∧ ¬(n ∈ acc) ∧ ∀ d ∈ depsIn ts n, d ∈ acc))

end ADFScriptGenerator

/-- The string order used for `queue.sort()`. -/
def strOrd (a b : String) : Prop := Py.strLe a.data b.data = true

instance : DecidableRel strOrd := fun a b => by unfold strOrd; infer_instance

/-! ## Theorems -/

/-- All-whitespace strings strip to the empty list. -/
theorem Py.strip_eq_nil_of_all_space (s : List Char)
    (h : ∀ c ∈ s, Py.isSpace c = true) : Py.strip s = [] := by
  unfold Py.strip
  have h1 : s.dropWhile Py.isSpace = [] := by
    rw [List.dropWhile_eq_nil_iff]
    exact fun c hc => h c hc
  rw [h1]
  rfl

/-- C10: for every input string that is empty or consists only of whitespace
characters, `translate` returns that input unchanged: the blank guard fires
before any normalization, port-prefix stripping, rewriting or forbidden-token
validation. -/
theorem C10_blank_input_is_returned_unchanged (e : String)
    (h : ∀ c ∈ e.data, Py.isSpace c = true) :
    ExpressionTranslator.translate e = .ok e := by
  have hb : ExpressionTranslator.isBlank e = true := by
    unfold ExpressionTranslator.isBlank
    rw [Py.strip_eq_nil_of_all_space e.data h]
    simp
  unfold ExpressionTranslator.translate
  rw [hb]
  rfl

/-- Witness for C10 at the concrete input `"  \t "`. -/
theorem C10_witness :
    ExpressionTranslator.translate "  \t " = .ok "  \t " :=
  C10_blank_input_is_returned_unchanged "  \t " (by decide)

/-- C1: `translate` is total (embedded as a total function whose only error
constructor is the `ValueError` of `_validate_translation`), its denylist is
exactly the fixed twelve tokens, an error is produced exactly when the
rewritten result still contains one of them case-insensitively, and a
successful translation returns the best-effort rewritten string. -/
theorem C1_translate_errs_iff_forbidden_token_remains (e : String) :
    ExpressionTranslator.forbidden_functions =
      ["GET_DATE_PART(", "ADD_TO_DATE(", "ADD_toDate(", "LAST_DAY(", "TO_CHAR(",
       "TO_DATE(", "REPLACE_CHAR(", "INSTR(", "DECODE(", " AND ", " OR ", " NOT "] ∧
    (∀ tok, ExpressionTranslator.translate e = .error tok →
      tok ∈ ExpressionTranslator.forbidden_functions ∧
      ExpressionTranslator.isBlank e = false ∧
      Py.isSubstr (Py.upper tok.data) (Py.upper (ExpressionTranslator.rewritten e)) = true) ∧
    ((ExpressionTranslator.isBlank e = false ∧
      ∃ tok ∈ ExpressionTranslator.forbidden_functions,
        Py.isSubstr (Py.upper tok.data) (Py.upper (ExpressionTranslator.rewritten e)) = true) →
      ∃ tok, ExpressionTranslator.translate e = .error tok) ∧
    (∀ r, ExpressionTranslator.translate e = .ok r →
      r = if ExpressionTranslator.isBlank e then e
          else String.mk (ExpressionTranslator.rewritten e)) := by
  refine ⟨rfl, ?_, ?_, ?_⟩
  · intro tok htok
    unfold ExpressionTranslator.translate at htok
    by_cases hb : ExpressionTranslator.isBlank e
    · rw [if_pos hb] at htok; cases htok
    · rw [if_neg hb] at htok
      simp only at htok
      rcases hfind : ExpressionTranslator.validate_translation (ExpressionTranslator.rewritten e) with _ | f
      · rw [hfind] at htok; cases htok
      · rw [hfind] at htok
        cases htok
        unfold ExpressionTranslator.validate_translation at hfind
        exact ⟨List.mem_of_find?_eq_some hfind, by simpa using hb,
          by simpa using List.find?_some hfind⟩
  · rintro ⟨hb, tok, htokmem, htoksub⟩
    unfold ExpressionTranslator.translate
    rw [if_neg (by simp [hb])]
    simp only
    rcases hfind : ExpressionTranslator.validate_translation (ExpressionTranslator.rewritten e) with _ | f
    · exfalso
      unfold ExpressionTranslator.validate_translation at hfind
      rw [List.find?_eq_none] at hfind
      exact absurd htoksub (by simpa using hfind tok htokmem)
    · exact ⟨f, rfl⟩
  · intro r hr
    unfold ExpressionTranslator.translate at hr
    by_cases hb : ExpressionTranslator.isBlank e
    · rw [if_pos hb] at hr
      cases hr
      rw [if_pos hb]
    · rw [if_neg hb] at hr
      simp only at hr
      rcases hfind : ExpressionTranslator.validate_translation (ExpressionTranslator.rewritten e) with _ | f
      · rw [hfind] at hr
        cases hr
        rw [if_neg hb]
      · rw [hfind] at hr; cases hr

/-- Witness for C1: `DECODE(x)` (too few arguments to rewrite) leaves a
`DECODE(` token behind, so `translate` raises. -/
theorem C1_witness :
    ∃ tok, ExpressionTranslator.translate "DECODE(x)" = .error tok :=
  (C1_translate_errs_iff_forbidden_token_remains "DECODE(x)").2.2.1
    ⟨by decide, "DECODE(", by decide, by decide⟩

/-- C7: evaluating `translate` at the spec's DECODE example.  The claim (and
the docstring of `_translate_decode`, lines 293–295) expects
`case(status, 'A', 'Active', 'I', 'Inactive', 'Unknown')`; the code instead
emits two spaces after each comma, because `_split_function_args` keeps each
argument's leading space and line 361 joins the arguments with `', '`. -/
theorem C7_decode_example_emits_double_spaces :
    ExpressionTranslator.translate "DECODE(status, 'A', 'Active', 'I', 'Inactive', 'Unknown')" =
      .ok "case(status,  'A',  'Active',  'I',  'Inactive',  'Unknown')" ∧
    ("case(status,  'A',  'Active',  'I',  'Inactive',  'Unknown')" : String) ≠
      "case(status, 'A', 'Active', 'I', 'Inactive', 'Unknown')" := by
  exact ⟨by rfl, by decide⟩

/-- C6: for every Lookup transformation with at least one condition, the
emitted script is exactly: a head line whose condition is
`main@R == lookupDataset@L` with `R`/`L` the numeric-suffix-stripped right/left
condition columns (operand order inverted relative to the source's
`lookupColumn = mainColumn` convention), one such line per further condition,
then the fixed configuration lines; `main` is the resolved `mainInput`,
falling back to the previous step only when `mainInput` is absent (or empty,
by Python truthiness). -/
theorem C6_lookup_conditions_inverted_qualified_stripped
    (trans : ADFScriptGenerator.Trans) (prev : String)
    (c : ADFScriptGenerator.LookupCond) (cs : List ADFScriptGenerator.LookupCond)
    (h : trans.lookupConditions = c :: cs) :
    ADFScriptGenerator.generate_lookup_script trans prev =
      (let ds := trans.lookupDataset.getD "UnknownLookupSource"
       let main := match trans.mainInput with
         | some m => if m ≠ "" then m else prev
         | none => prev
       (main ++ ", " ++ ds ++ " lookup(" ++
          main ++ "@" ++ ADFScriptGenerator.strip_numeric_suffix c.rightColumn ++ " == " ++
          ds ++ "@" ++ ADFScriptGenerator.strip_numeric_suffix c.leftColumn ++ ",") ::
       cs.map (fun c' =>
         "     " ++ main ++ "@" ++ ADFScriptGenerator.strip_numeric_suffix c'.rightColumn ++
           " == " ++ ds ++ "@" ++ ADFScriptGenerator.strip_numeric_suffix c'.leftColumn ++ ",") ++
       ["     multiple: false,", "     pickup: 'any')~> " ++ trans.name]) := by
  unfold ADFScriptGenerator.generate_lookup_script
  rw [h]
  simp only [ADFScriptGenerator.lookupCondText, String.append_assoc]

/-- Witness for C6 at a concrete Lookup with a suffixed condition column. -/
theorem C6_witness :
    ADFScriptGenerator.generate_lookup_script
      { name := "lkpDIMDATES", ttype := "Lookup", mainInput := some "STGTRANSACTIONS",
        lookupDataset := some "DIMDATES",
        lookupConditions := [{ leftColumn := "DATE_VALUE", rightColumn := "TRANSACTION_DATE2" }] }
      "prevStep" =
      ["STGTRANSACTIONS, DIMDATES lookup(STGTRANSACTIONS@TRANSACTION_DATE == DIMDATES@DATE_VALUE,",
       "     multiple: false,",
       "     pickup: 'any')~> lkpDIMDATES"] := by
  have := C6_lookup_conditions_inverted_qualified_stripped
    { name := "lkpDIMDATES", ttype := "Lookup", mainInput := some "STGTRANSACTIONS",
      lookupDataset := some "DIMDATES",
      lookupConditions := [{ leftColumn := "DATE_VALUE", rightColumn := "TRANSACTION_DATE2" }] }
    "prevStep" { leftColumn := "DATE_VALUE", rightColumn := "TRANSACTION_DATE2" } [] rfl
  simpa using this

/-- C2: when a Joiner's deduplicated adjacency list has at least two entries
and the first two raw upstream names are distinct but resolve to the same
name, the translator records an error and the result's `leftInput` /
`rightInput` are the raw names — in particular they are never both the
collapsed resolved name. -/
theorem C2_joiner_inconsistent_resolution_falls_back_to_raw
    (cm : String → List String) (transes : List Translator.TransMeta)
    (sources : List String) (j : String) (a b : String) (rest : List String)
    (hu : Py.dedupFirst (cm j) = a :: b :: rest)
    (hab : a ≠ b)
    (hres : Translator.resolve_source_qualifier_to_source cm transes sources a =
            Translator.resolve_source_qualifier_to_source cm transes sources b) :
    (Translator.translate_joiner_inputs cm transes sources j).leftInput = some a ∧
    (Translator.translate_joiner_inputs cm transes sources j).rightInput = some b ∧
    (Translator.translate_joiner_inputs cm transes sources j).errors ≠ [] ∧
    ¬((Translator.translate_joiner_inputs cm transes sources j).leftInput =
        some (Translator.resolve_source_qualifier_to_source cm transes sources a) ∧
      (Translator.translate_joiner_inputs cm transes sources j).rightInput =
        some (Translator.resolve_source_qualifier_to_source cm transes sources a)) := by
  have hbne : (a != b) = true := by simpa using hab
  have key : Translator.translate_joiner_inputs cm transes sources j =
      { leftInput := some a, rightInput := some b,
        errors := ["ERROR CRITICO: Joiner '" ++ j ++ "' tiene inputs diferentes (" ++
          a ++ " vs " ++ b ++ ") pero ambos se resolvieron al mismo stream: '" ++
          Translator.resolve_source_qualifier_to_source cm transes sources a ++ "'."] } := by
    simp only [Translator.translate_joiner_inputs]
    rw [hu]
    simp [hres, hbne]
  refine ⟨by rw [key], by rw [key], by rw [key]; simp, ?_⟩
  rintro ⟨hl, hr⟩
  rw [key] at hl hr
  simp only [Option.some.injEq] at hl hr
  exact hab (hl.trans hr.symm)

/-- Witness for C2: two distinct source qualifiers feeding one joiner, both
resolving to the same source `SRC`. -/
theorem C2_witness :
    (Translator.translate_joiner_inputs
        (fun n => if n = "JN" then ["SQ_A", "SQ_B"] else ["SRC"])
        [{ name := "SQ_A", ttype := "Source Qualifier" },
         { name := "SQ_B", ttype := "Source Qualifier" }] ["SRC"] "JN").leftInput =
      some "SQ_A" ∧
    (Translator.translate_joiner_inputs
        (fun n => if n = "JN" then ["SQ_A", "SQ_B"] else ["SRC"])
        [{ name := "SQ_A", ttype := "Source Qualifier" },
         { name := "SQ_B", ttype := "Source Qualifier" }] ["SRC"] "JN").rightInput =
      some "SQ_B" ∧
    (Translator.translate_joiner_inputs
        (fun n => if n = "JN" then ["SQ_A", "SQ_B"] else ["SRC"])
        [{ name := "SQ_A", ttype := "Source Qualifier" },
         { name := "SQ_B", ttype := "Source Qualifier" }] ["SRC"] "JN").errors ≠ [] ∧
    ¬((Translator.translate_joiner_inputs
        (fun n => if n = "JN" then ["SQ_A", "SQ_B"] else ["SRC"])
        [{ name := "SQ_A", ttype := "Source Qualifier" },
         { name := "SQ_B", ttype := "Source Qualifier" }] ["SRC"] "JN").leftInput =
      some (Translator.resolve_source_qualifier_to_source
        (fun n => if n = "JN" then ["SQ_A", "SQ_B"] else ["SRC"])
        [{ name := "SQ_A", ttype := "Source Qualifier" },
         { name := "SQ_B", ttype := "Source Qualifier" }] ["SRC"] "SQ_A") ∧
      (Translator.translate_joiner_inputs
        (fun n => if n = "JN" then ["SQ_A", "SQ_B"] else ["SRC"])
        [{ name := "SQ_A", ttype := "Source Qualifier" },
         { name := "SQ_B", ttype := "Source Qualifier" }] ["SRC"] "JN").rightInput =
      some (Translator.resolve_source_qualifier_to_source
        (fun n => if n = "JN" then ["SQ_A", "SQ_B"] else ["SRC"])
        [{ name := "SQ_A", ttype := "Source Qualifier" },
         { name := "SQ_B", ttype := "Source Qualifier" }] ["SRC"] "SQ_A")) :=
  C2_joiner_inconsistent_resolution_falls_back_to_raw
    (fun n => if n = "JN" then ["SQ_A", "SQ_B"] else ["SRC"])
    [{ name := "SQ_A", ttype := "Source Qualifier" },
     { name := "SQ_B", ttype := "Source Qualifier" }] ["SRC"] "JN"
    "SQ_A" "SQ_B" [] (by decide) (by decide) (by decide)

/-- The scanner `subWordAux` is the identity when `old` has no
whole-identifier, not-`@`-qualified occurrence in the input. -/
theorem subWordAux_id_of_noOcc (oc : Char) (orest new : List Char) :
    ∀ (fuel : Nat) (prev : Option Char) (s : List Char),
      ADFScriptGenerator.noOccFrom prev s (oc :: orest) →
      ADFScriptGenerator.subWordAux oc orest new fuel prev s = s := by
  intro fuel
  induction fuel with
  | zero => intro prev s _; rfl
  | succ n ih =>
    intro prev s hno
    cases s with
    | nil => rfl
    | cons c rest =>
      obtain ⟨hnocc, hrest⟩ := hno
      unfold ADFScriptGenerator.subWordAux
      have hb :
          ((oc :: orest).isPrefixOf (c :: rest) &&
            ADFScriptGenerator.wordBoundAt prev (some c) &&
            ADFScriptGenerator.wordBoundAt (oc :: orest).getLast?
              (rest.drop orest.length).head? &&
            (prev != some '@')) = false := by
        by_contra hcontra
        rw [Bool.not_eq_false] at hcontra
        simp only [Bool.and_eq_true, bne_iff_ne] at hcontra
        exact hnocc ⟨by simp, hcontra.1.1.1, by simpa using hcontra.1.1.2,
          by simpa using hcontra.1.2, hcontra.2⟩
      simp only [hb, Bool.false_eq_true, if_false]
      rw [ih (some c) rest hrest]

/-- C5: the disambiguation map entries are applied in decreasing
original-name-length order (stable under ties, like CPython's `sorted`), a
single substitution never rewrites anything unless a whole-identifier,
not-`@`-qualified occurrence exists (so `DISCOUNT1` never partially rewrites
`DISCOUNT10` and `S@DISCOUNT1` is untouched), and the accumulated Lookup maps
rewrite exactly the qualifying occurrences. -/
theorem C5_disambiguation_longest_first_whole_identifier_only :
    (∀ m : List (String × String),
      (ADFScriptGenerator.sortByKeyLenDesc m).Pairwise
        (fun p q => q.1.length ≤ p.1.length)) ∧
    (∀ (old new : String) (s : List Char),
      ADFScriptGenerator.noOccFrom none s old.data →
      ADFScriptGenerator.subWordNotAt old new s = s) ∧
    String.mk (ADFScriptGenerator.apply_column_disambiguation
        "DISCOUNT10 + DISCOUNT1 + S@DISCOUNT1".data
        [{ name := "lkp", ttype := "Lookup",
           columnDisambiguation := [("DISCOUNT1", "lkp_DIM_PROMO@DISCOUNT")] }]) =
      "DISCOUNT10 + lkp_DIM_PROMO@DISCOUNT + S@DISCOUNT1" := by
  refine ⟨?_, ?_, by rfl⟩
  · intro m
    haveI htot : IsTotal (String × String) (fun p q => q.1.length ≤ p.1.length) :=
      ⟨fun a b => (le_total b.1.length a.1.length)⟩
    haveI htr : IsTrans (String × String) (fun p q => q.1.length ≤ p.1.length) :=
      ⟨fun _ _ _ hab hbc => le_trans hbc hab⟩
    exact List.sorted_insertionSort _ m
  · intro old new s hno
    unfold ADFScriptGenerator.subWordNotAt
    cases hdata : old.data with
    | nil => rfl
    | cons oc orest =>
      rw [hdata] at hno
      exact subWordAux_id_of_noOcc oc orest new.data (s.length + 1) none s hno

/-- Witness for C5: `DISCOUNT` occurs in `DISCOUNT1 + S@DISCOUNT` only inside
a longer identifier or `@`-qualified, so the substitution leaves the
expression unchanged. -/
theorem C5_witness :
    ADFScriptGenerator.subWordNotAt "DISCOUNT" "Z@W" "DISCOUNT1 + S@DISCOUNT".data =
      "DISCOUNT1 + S@DISCOUNT".data :=
  C5_disambiguation_longest_first_whole_identifier_only.2.1 "DISCOUNT" "Z@W"
    "DISCOUNT1 + S@DISCOUNT".data (by decide)

/-- Dropping a trailing empty segment commutes with consing onto a non-empty
list. -/
theorem dropTrailingEmpty_cons₂ (x y : List Char) (l : List (List Char)) :
    ExpressionTranslator.dropTrailingEmpty (x :: y :: l) =
      x :: ExpressionTranslator.dropTrailingEmpty (y :: l) := by
  unfold ExpressionTranslator.dropTrailingEmpty
  rw [List.getLast?_cons_cons]
  rcases h : (y :: l).getLast? with _ | seg
  · simp at h
  · cases seg with
    | nil => rw [List.dropLast_cons₂]
    | cons a as => rfl

/-- The implementation's splitter equals the specification split with a
trailing empty segment dropped, for every accumulator and scanner state. -/
theorem splitArgsAux_eq_spec (cs : List Char) :
    ∀ (curr : List Char) (d : Int) (iS iD : Bool),
      ExpressionTranslator.splitArgsAux cs curr d iS iD =
        ExpressionTranslator.dropTrailingEmpty
          ((curr ++ (ExpressionTranslator.specSplitAux cs d iS iD).1) ::
            (ExpressionTranslator.specSplitAux cs d iS iD).2) := by
  induction cs with
  | nil =>
    intro curr d iS iD
    cases curr <;>
      simp [ExpressionTranslator.splitArgsAux, ExpressionTranslator.specSplitAux,
        ExpressionTranslator.dropTrailingEmpty]
  | cons c rest ih =>
    intro curr d iS iD
    cases hb1 : (c = '\'' && !iD) with
    | true =>
      have hb1' : c = '\'' ∧ iD = false := by simpa using hb1
      obtain ⟨hc, hd⟩ := hb1'
      subst hc; subst hd
      simp [ExpressionTranslator.splitArgsAux, ExpressionTranslator.specSplitAux, ih]
    | false =>
    cases hb2 : (c = '"' && !iS) with
    | true =>
      have hb2' : c = '"' ∧ iS = false := by simpa using hb2
      obtain ⟨hc, hs⟩ := hb2'
      subst hc; subst hs
      simp [ExpressionTranslator.splitArgsAux, ExpressionTranslator.specSplitAux, ih, hb1]
    | false =>
    cases hb3 : (c = '(' && !iS && !iD) with
    | true =>
      have hb3' : c = '(' ∧ iS = false ∧ iD = false := by simpa [and_assoc] using hb3
      obtain ⟨hc, hs, hd⟩ := hb3'
      subst hc; subst hs; subst hd
      simp [ExpressionTranslator.splitArgsAux, ExpressionTranslator.specSplitAux, ih]
    | false =>
    cases hb4 : (c = ')' && !iS && !iD) with
    | true =>
      have hb4' : c = ')' ∧ iS = false ∧ iD = false := by simpa [and_assoc] using hb4
      obtain ⟨hc, hs, hd⟩ := hb4'
      subst hc; subst hs; subst hd
      simp [ExpressionTranslator.splitArgsAux, ExpressionTranslator.specSplitAux, ih]
    | false =>
    cases hb5 : (c = ',' && d = 0 && !iS && !iD) with
    | true =>
      have hb5' : c = ',' ∧ d = 0 ∧ iS = false ∧ iD = false := by
        simpa [and_assoc] using hb5
      obtain ⟨hc, hd0, hs, hd⟩ := hb5'
      subst hc; subst hd0; subst hs; subst hd
      simp [ExpressionTranslator.splitArgsAux, ExpressionTranslator.specSplitAux, ih,
        dropTrailingEmpty_cons₂]
    | false =>
      simp [ExpressionTranslator.splitArgsAux, ExpressionTranslator.specSplitAux,
        hb1, hb2, hb3, hb4, hb5, ih]

/-- C8: the paren/quote-aware argument splitter returns exactly the top-level
comma-separated segments (boundaries precisely at commas at parenthesis depth
zero outside quotes), except that a trailing empty segment is dropped;
in particular, whenever the last top-level segment is non-empty the result is
exactly the specification split, and commas/parentheses inside quoted
literals do not affect the result (concrete instance included). -/
theorem C8_split_function_args_matches_top_level_commas :
    (∀ text : List Char,
      ExpressionTranslator.split_function_args text =
        ExpressionTranslator.dropTrailingEmpty (ExpressionTranslator.specSplit text)) ∧
    (∀ text : List Char,
      (ExpressionTranslator.specSplit text).getLast? ≠ some [] →
      ExpressionTranslator.split_function_args text = ExpressionTranslator.specSplit text) ∧
    ExpressionTranslator.split_function_args "f(a,b), 'x,(y', z".data =
      ["f(a,b)".data, " 'x,(y'".data, " z".data] := by
  have hmain : ∀ text : List Char,
      ExpressionTranslator.split_function_args text =
        ExpressionTranslator.dropTrailingEmpty (ExpressionTranslator.specSplit text) := by
    intro text
    unfold ExpressionTranslator.split_function_args ExpressionTranslator.specSplit
    simpa using splitArgsAux_eq_spec text [] 0 false false
  refine ⟨hmain, ?_, by rfl⟩
  intro text hlast
  rw [hmain text]
  unfold ExpressionTranslator.dropTrailingEmpty
  rcases h : (ExpressionTranslator.specSplit text).getLast? with _ | seg
  · rfl
  · cases seg with
    | nil => exact absurd h hlast
    | cons a as => rfl

/-- Witness for C8: a quoted comma does not split, and with a non-empty final
argument the splitter output is exactly the specification split. -/
theorem C8_witness :
    ExpressionTranslator.split_function_args "a, 'b,c'".data =
      ExpressionTranslator.specSplit "a, 'b,c'".data :=
  C8_split_function_args_matches_top_level_commas.2.1 "a, 'b,c'".data (by decide)

/-! ### Order lemmas for the queue sort -/

theorem Py.strLt_irrefl (a : List Char) : Py.strLt a a = false := by
  induction a with
  | nil => rfl
  | cons x xs ih => simp [Py.strLt, ih]

theorem Py.strLt_trans (a : List Char) : ∀ (b c : List Char),
    Py.strLt a b = true → Py.strLt b c = true → Py.strLt a c = true := by
  induction a with
  | nil =>
    intro b c hab hbc
    cases b with
    | nil => simp [Py.strLt] at hab
    | cons y ys =>
      cases c with
      | nil => simp [Py.strLt] at hbc
      | cons z zs => rfl
  | cons x xs ih =>
    intro b c hab hbc
    cases b with
    | nil => simp [Py.strLt] at hab
    | cons y ys =>
      cases c with
      | nil => simp [Py.strLt] at hbc
      | cons z zs =>
        simp only [Py.strLt] at hab hbc ⊢
        split_ifs at hab hbc ⊢ <;>
          first
          | rfl
          | omega
          | exact ih ys zs hab hbc
          | cases hab
          | cases hbc

theorem Py.strLt_connex (a : List Char) : ∀ (b : List Char), a ≠ b →
    Py.strLt a b = true ∨ Py.strLt b a = true := by
  induction a with
  | nil =>
    intro b h
    cases b with
    | nil => exact absurd rfl h
    | cons y ys => left; rfl
  | cons x xs ih =>
    intro b h
    cases b with
    | nil => right; rfl
    | cons y ys =>
      by_cases hxy : x.toNat = y.toNat
      · have hx : x = y := Char.ext (UInt32.ext hxy)
        subst hx
        have hys : xs ≠ ys := fun hh => h (by rw [hh])
        rcases ih ys hys with h1 | h1
        · left; simp [Py.strLt, h1]
        · right; simp [Py.strLt, h1]
      · rcases Nat.lt_or_ge x.toNat y.toNat with hlt | hge
        · left; simp [Py.strLt, hlt]
        · have hlt : y.toNat < x.toNat := by omega
          right; simp [Py.strLt, hlt]

instance : IsTotal String strOrd := by
  constructor
  intro a b
  unfold strOrd Py.strLe
  by_cases h : Py.strLt b.data a.data = true
  · right
    simp only [Bool.not_eq_true']
    by_contra hc
    simp only [Bool.not_eq_false] at hc
    have := Py.strLt_trans _ _ _ h hc
    rw [Py.strLt_irrefl] at this
    cases this
  · left; simp [Bool.not_eq_true] at h; simp [h]

instance : IsTrans String strOrd := by
  constructor
  intro a b c hab hbc
  unfold strOrd Py.strLe at *
  simp only [Bool.not_eq_true'] at hab hbc ⊢
  by_contra hc
  simp only [Bool.not_eq_false] at hc
  by_cases hbceq : b.data = c.data
  · rw [hbceq] at hab; rw [hab] at hc; cases hc
  · rcases Py.strLt_connex b.data c.data hbceq with h1 | h1
    · have := Py.strLt_trans _ _ _ h1 hc
      rw [this] at hab; cases hab
    · rw [h1] at hbc; cases hbc

instance : IsAntisymm String strOrd := by
  constructor
  intro a b hab hba
  unfold strOrd Py.strLe at hab hba
  simp only [Bool.not_eq_true'] at hab hba
  by_contra hne
  have hne' : a.data ≠ b.data := fun hh => hne (String.ext hh)
  rcases Py.strLt_connex a.data b.data hne' with h1 | h1
  · rw [h1] at hba; cases hba
  · rw [h1] at hab; cases hab

theorem sortQueue_perm (q : List String) : (ADFScriptGenerator.sortQueue q).Perm q :=
  List.perm_insertionSort _ q

theorem sortQueue_sorted (q : List String) :
    List.Sorted strOrd (ADFScriptGenerator.sortQueue q) :=
  List.sorted_insertionSort _ q

/-- Two duplicate-free queues with the same members sort identically. -/
theorem sortQueue_eq_of_same_mem {q₁ q₂ : List String} (h₁ : q₁.Nodup)
    (h₂ : q₂.Nodup) (hm : ∀ n, n ∈ q₁ ↔ n ∈ q₂) :
    ADFScriptGenerator.sortQueue q₁ = ADFScriptGenerator.sortQueue q₂ := by
  have hperm : q₁.Perm q₂ := by
    apply List.perm_of_nodup_nodup_toFinset_eq h₁ h₂
    ext n
    simp [hm n]
  exact List.eq_of_perm_of_sorted
    (((sortQueue_perm q₁).trans hperm).trans (sortQueue_perm q₂).symm)
    (sortQueue_sorted q₁) (sortQueue_sorted q₂)

/-! ### Kahn development: basic lemmas -/

theorem Py.mem_dedupFirst {x : String} : ∀ {l : List String},
    x ∈ Py.dedupFirst l ↔ x ∈ l := by
  intro l
  induction l with
  | nil => simp [Py.dedupFirst]
  | cons y ys ih =>
    simp only [Py.dedupFirst, List.mem_cons, List.mem_filter, ih, bne_iff_ne]
    by_cases hxy : x = y
    · simp [hxy]
    · simp [hxy]

theorem Py.dedupFirst_nodup : ∀ (l : List String), (Py.dedupFirst l).Nodup
  | [] => by simp [Py.dedupFirst]
  | x :: xs => by
    simp only [Py.dedupFirst, List.nodup_cons]
    refine ⟨by simp [List.mem_filter], ?_⟩
    exact (Py.dedupFirst_nodup xs).filter _

theorem Py.dedupFirst_eq_self : ∀ {l : List String}, l.Nodup → Py.dedupFirst l = l
  | [], _ => rfl
  | x :: xs, h => by
    simp only [Py.dedupFirst]
    rw [Py.dedupFirst_eq_self (List.Nodup.of_cons h)]
    rw [List.filter_eq_self.mpr]
    intro y hy
    have : y ≠ x := by
      rintro rfl
      exact (List.nodup_cons.mp h).1 hy
    simpa using this

theorem ADFScriptGenerator.depsOf_nodup (t : ADFScriptGenerator.Trans) :
    (ADFScriptGenerator.depsOf t).Nodup :=
  Py.dedupFirst_nodup _

theorem ADFScriptGenerator.depsIn_nodup (ts : List ADFScriptGenerator.Trans) (n : String) :
    (ADFScriptGenerator.depsIn ts n).Nodup := by
  unfold ADFScriptGenerator.depsIn
  split
  · exact (ADFScriptGenerator.depsOf_nodup _).filter _
  · exact List.nodup_nil

theorem ADFScriptGenerator.depsIn_subset_names (ts : List ADFScriptGenerator.Trans)
    (n : String) : ∀ d ∈ ADFScriptGenerator.depsIn ts n, d ∈ ADFScriptGenerator.namesOf ts := by
  unfold ADFScriptGenerator.depsIn
  split
  · intro d hd
    simpa using (List.mem_filter.mp hd).2
  · intro d hd; cases hd

/-- `find?` of a predicate satisfied by exactly one member. -/
theorem find?_eq_some_unique {α : Type} {p : α → Bool} : ∀ {l : List α} {t : α},
    t ∈ l → p t = true → (∀ x ∈ l, p x = true → x = t) → l.find? p = some t := by
  intro l
  induction l with
  | nil => intro t ht; cases ht
  | cons x xs ih =>
    intro t ht hp huniq
    by_cases hx : p x = true
    · rw [List.find?_cons_of_pos _ hx]
      exact congrArg some (huniq x (by simp) hx)
    · rw [List.find?_cons_of_neg _ hx]
      rcases List.mem_cons.mp ht with rfl | htx
      · exact absurd hp hx
      · exact ih htx hp (fun y hy hpy => huniq y (List.mem_cons_of_mem _ hy) hpy)

theorem ADFScriptGenerator.name_injOn {ts : List ADFScriptGenerator.Trans}
    (hnd : (ADFScriptGenerator.namesOf ts).Nodup) :
    ∀ t ∈ ts, ∀ t' ∈ ts, t.name = t'.name → t = t' := by
  intro t ht t' ht' hname
  exact List.inj_on_of_nodup_map (by simpa [ADFScriptGenerator.namesOf] using hnd) ht ht' hname

theorem ADFScriptGenerator.find?_name_of_mem {ts : List ADFScriptGenerator.Trans}
    (hnd : (ADFScriptGenerator.namesOf ts).Nodup) {t : ADFScriptGenerator.Trans}
    (ht : t ∈ ts) : ts.find? (fun t' => t'.name = t.name) = some t := by
  apply find?_eq_some_unique ht (by simp)
  intro x hx hpx
  exact ADFScriptGenerator.name_injOn hnd x hx t ht (by simpa using hpx)

theorem ADFScriptGenerator.reverse_find?_name_of_mem {ts : List ADFScriptGenerator.Trans}
    (hnd : (ADFScriptGenerator.namesOf ts).Nodup) {t : ADFScriptGenerator.Trans}
    (ht : t ∈ ts) : ts.reverse.find? (fun t' => t'.name = t.name) = some t := by
  apply find?_eq_some_unique (List.mem_reverse.mpr ht) (by simp)
  intro x hx hpx
  exact ADFScriptGenerator.name_injOn hnd x (List.mem_reverse.mp hx) t ht (by simpa using hpx)

theorem ADFScriptGenerator.filter_name_singleton {ts : List ADFScriptGenerator.Trans}
    (hnd : (ADFScriptGenerator.namesOf ts).Nodup) {t : ADFScriptGenerator.Trans}
    (ht : t ∈ ts) : ts.filter (fun t' => t'.name = t.name) = [t] := by
  induction ts with
  | nil => cases ht
  | cons t0 rest ih =>
    have hnd' : (ADFScriptGenerator.namesOf rest).Nodup := by
      simpa [ADFScriptGenerator.namesOf] using (List.nodup_cons.mp hnd).2
    have h0 : t0.name ∉ ADFScriptGenerator.namesOf rest := by
      simpa [ADFScriptGenerator.namesOf] using (List.nodup_cons.mp hnd).1
    by_cases hp : t0.name = t.name
    · have ht0 : t0 = t := by
        rcases List.mem_cons.mp ht with rfl | htr
        · rfl
        · exact absurd (hp ▸ (List.mem_map_of_mem (fun t => t.name) htr)) h0
      subst ht0
      rw [List.filter_cons_of_pos (by simpa using hp)]
      rw [List.filter_eq_nil.mpr, List.cons.injEq]
      · exact ⟨rfl, rfl⟩
      · intro x hx
        simp only [decide_eq_true_eq]
        intro hxname
        apply h0
        rw [← hxname]
        exact List.mem_map_of_mem (fun t => t.name) hx
    · have htr : t ∈ rest := by
        rcases List.mem_cons.mp ht with rfl | htr
        · exact absurd rfl hp
        · exact htr
      rw [List.filter_cons_of_neg (by simpa using hp)]
      exact ih hnd' htr

theorem ADFScriptGenerator.indegInit_eq {ts : List ADFScriptGenerator.Trans}
    (hnd : (ADFScriptGenerator.namesOf ts).Nodup) (n : String) :
    ADFScriptGenerator.indegInit ts n = ((ADFScriptGenerator.depsIn ts n).length : Int) := by
  unfold ADFScriptGenerator.indegInit ADFScriptGenerator.depsIn
  rcases hfind : ts.find? (fun t => t.name = n) with _ | t
  · have hnone := List.find?_eq_none.mp hfind
    rw [List.filter_eq_nil.mpr (fun x hx => by simpa using hnone x hx)]
    simp [hfind]
  · have hmem := List.mem_of_find?_eq_some hfind
    have hname : t.name = n := by simpa using List.find?_some hfind
    subst hname
    rw [ADFScriptGenerator.filter_name_singleton hnd hmem]
    simp [hfind]

theorem ADFScriptGenerator.graphAdj_nodup {ts : List ADFScriptGenerator.Trans}
    (hnd : (ADFScriptGenerator.namesOf ts).Nodup) (dep : String) :
    (ADFScriptGenerator.graphAdj ts dep).Nodup := by
  unfold ADFScriptGenerator.graphAdj
  exact List.Nodup.sublist (List.Sublist.map _ (List.filter_sublist ts))
    (by simpa [ADFScriptGenerator.namesOf] using hnd)

theorem ADFScriptGenerator.mem_graphAdj {ts : List ADFScriptGenerator.Trans}
    (hnd : (ADFScriptGenerator.namesOf ts).Nodup) {dep : String}
    (hdep : dep ∈ ADFScriptGenerator.namesOf ts) (x : String) :
    x ∈ ADFScriptGenerator.graphAdj ts dep ↔
      (x ∈ ADFScriptGenerator.namesOf ts ∧ dep ∈ ADFScriptGenerator.depsIn ts x) := by
  unfold ADFScriptGenerator.graphAdj
  constructor
  · intro hx
    simp only [List.mem_map, List.mem_filter] at hx
    obtain ⟨t, ⟨ht, hdeps⟩, hname⟩ := hx
    subst hname
    refine ⟨List.mem_map_of_mem _ ht, ?_⟩
    unfold ADFScriptGenerator.depsIn
    rw [ADFScriptGenerator.find?_name_of_mem hnd ht]
    rw [List.mem_filter]
    exact ⟨by simpa using hdeps, by simpa using hdep⟩
  · rintro ⟨hx, hdepmem⟩
    simp only [ADFScriptGenerator.namesOf, List.mem_map] at hx
    obtain ⟨t, ht, hname⟩ := hx
    subst hname
    unfold ADFScriptGenerator.depsIn at hdepmem
    rw [ADFScriptGenerator.find?_name_of_mem hnd ht] at hdepmem
    simp only [List.mem_map, List.mem_filter]
    exact ⟨t, ⟨ht, by simpa using (List.mem_filter.mp hdepmem).1⟩, rfl⟩

theorem ADFScriptGenerator.decStep_eq (indeg : String → Int) (q : List String) (nb : String) :
    ADFScriptGenerator.decStep (indeg, q) nb =
      ((fun y => if y = nb then indeg nb - 1 else indeg y),
        if indeg nb - 1 = 0 then q ++ [nb] else q) := by
  by_cases h : indeg nb - 1 = 0 <;> simp [ADFScriptGenerator.decStep, h]

theorem ADFScriptGenerator.foldl_decStep_fst {nbs : List String} (hnb : nbs.Nodup) :
    ∀ (indeg : String → Int) (q : List String) (x : String),
      ((nbs.foldl ADFScriptGenerator.decStep (indeg, q)).1) x =
        if x ∈ nbs then indeg x - 1 else indeg x := by
  induction nbs with
  | nil => intro indeg q x; simp
  | cons nb rest ih =>
    intro indeg q x
    rw [List.foldl_cons, ADFScriptGenerator.decStep_eq,
      ih (List.Nodup.of_cons hnb) _ _ x]
    by_cases hx : x = nb
    · subst hx
      have hnr : x ∉ rest := (List.nodup_cons.mp hnb).1
      simp [hnr]
    · simp [hx, List.mem_cons]

theorem ADFScriptGenerator.foldl_decStep_snd {nbs : List String} (hnb : nbs.Nodup) :
    ∀ (indeg : String → Int) (q : List String),
      ((nbs.foldl ADFScriptGenerator.decStep (indeg, q)).2) =
        q ++ nbs.filter (fun x => indeg x - 1 = 0) := by
  induction nbs with
  | nil => intro indeg q; simp
  | cons nb rest ih =>
    intro indeg q
    rw [List.foldl_cons, ADFScriptGenerator.decStep_eq,
      ih (List.Nodup.of_cons hnb)]
    have hcong : rest.filter
        (fun x => decide ((if x = nb then indeg nb - 1 else indeg x) - 1 = 0)) =
        rest.filter (fun x => decide (indeg x - 1 = 0)) := by
      apply List.filter_congr
      intro x hx
      have hxnb : x ≠ nb := by
        rintro rfl
        exact (List.nodup_cons.mp hnb).1 hx
      simp [hxnb]
    rw [hcong]
    by_cases h0 : indeg nb - 1 = 0 <;> simp [h0, List.filter_cons]

theorem list_eq_singleton_of_nodup_all_eq {l : List String} {a : String}
    (hnd : l.Nodup) (hall : ∀ d ∈ l, d = a) (ha : a ∈ l) : l = [a] := by
  cases l with
  | nil => cases ha
  | cons x xs =>
    have hx : x = a := hall x (by simp)
    subst hx
    cases xs with
    | nil => rfl
    | cons y ys =>
      have hy : y = x := hall y (by simp)
      subst hy
      exact absurd (by simp : y ∈ y :: ys) (List.nodup_cons.mp hnd).1

theorem ADFScriptGenerator.kahnInv_step {ts : List ADFScriptGenerator.Trans}
    (hnd : (ADFScriptGenerator.namesOf ts).Nodup)
    {queue : List String} {indeg : String → Int} {acc : List String}
    (hInv : ADFScriptGenerator.KahnInv ts queue indeg acc) {node : String}
    {rest' : List String}
    (hsort : ADFScriptGenerator.sortQueue queue = node :: rest') :
    ADFScriptGenerator.KahnInv ts
      (((ADFScriptGenerator.graphAdj ts node).foldl ADFScriptGenerator.decStep
        (indeg, rest')).2)
      (((ADFScriptGenerator.graphAdj ts node).foldl ADFScriptGenerator.decStep
        (indeg, rest')).1)
      (acc ++ [node]) := by
  obtain ⟨hAccNd, hAccSub, hAccCl, hIndeg, hQNd, hQMem⟩ := hInv
  have hsortperm := sortQueue_perm queue
  have hnodeq : node ∈ queue := hsortperm.mem_iff.mp (by rw [hsort]; simp)
  obtain ⟨hnodeNames, hnodeNotAcc, hnodeDeps⟩ := (hQMem node).mp hnodeq
  have hsortNd : (node :: rest').Nodup := by
    rw [← hsort]; exact hsortperm.nodup_iff.mpr hQNd
  have hrestNd : rest'.Nodup := (List.nodup_cons.mp hsortNd).2
  have hnodeNotRest : node ∉ rest' := (List.nodup_cons.mp hsortNd).1
  have hrestMem : ∀ x, x ∈ rest' ↔ (x ∈ queue ∧ x ≠ node) := by
    intro x
    constructor
    · intro hx
      refine ⟨hsortperm.mem_iff.mp (by rw [hsort]; exact List.mem_cons_of_mem _ hx), ?_⟩
      rintro rfl
      exact hnodeNotRest hx
    · rintro ⟨hxq, hxne⟩
      have hx2 : x ∈ node :: rest' := by rw [← hsort]; exact hsortperm.mem_iff.mpr hxq
      rcases List.mem_cons.mp hx2 with rfl | h
      · exact absurd rfl hxne
      · exact h
  have hnbNd : (ADFScriptGenerator.graphAdj ts node).Nodup :=
    ADFScriptGenerator.graphAdj_nodup hnd node
  have hmemnb : ∀ x, x ∈ ADFScriptGenerator.graphAdj ts node ↔
      (x ∈ ADFScriptGenerator.namesOf ts ∧ node ∈ ADFScriptGenerator.depsIn ts x) :=
    fun x => ADFScriptGenerator.mem_graphAdj hnd hnodeNames x
  have hfst := ADFScriptGenerator.foldl_decStep_fst hnbNd indeg rest'
  have hsnd := ADFScriptGenerator.foldl_decStep_snd hnbNd indeg rest'
  have hfilterSplit : ∀ (l : List String),
      l.filter (fun d => !(d ∈ acc ++ [node])) =
        (l.filter (fun d => !(d ∈ acc))).filter (fun d => d != node) := by
    intro l
    rw [List.filter_filter]
    apply List.filter_congr
    intro d _
    by_cases h1 : d ∈ acc <;> by_cases h2 : d = node <;>
      simp [h1, h2, List.mem_append]
  refine ⟨?_, ?_, ?_, ?_, ?_, ?_⟩
  · -- acc' Nodup
    simp [List.nodup_append, hAccNd]
    intro hcon
    exact absurd hcon hnodeNotAcc
  · -- acc' ⊆ names
    intro n hn
    rcases List.mem_append.mp hn with h | h
    · exact hAccSub n h
    · rw [show n = node by simpa using h]
      exact hnodeNames
  · -- acc' dependency-closed
    intro n hn d hd
    rcases List.mem_append.mp hn with h | h
    · exact List.mem_append_left _ (hAccCl n h d hd)
    · rw [show n = node by simpa using h] at hd
      exact List.mem_append_left _ (hnodeDeps d hd)
  · -- indeg spec
    intro n hn
    rw [hfst n]
    rw [hfilterSplit]
    by_cases hin : n ∈ ADFScriptGenerator.graphAdj ts node
    · rw [if_pos hin, hIndeg n hn]
      have hnodeIn : node ∈ (ADFScriptGenerator.depsIn ts n).filter
          (fun d => !(d ∈ acc)) := by
        rw [List.mem_filter]
        exact ⟨((hmemnb n).mp hin).2, by simpa using hnodeNotAcc⟩
      have hndF : ((ADFScriptGenerator.depsIn ts n).filter
          (fun d => !(d ∈ acc))).Nodup :=
        (ADFScriptGenerator.depsIn_nodup ts n).filter _
      have hlen := List.length_erase_of_mem hnodeIn
      rw [List.Nodup.erase_eq_filter hndF node] at hlen
      rw [hlen]
      have hpos : 0 < ((ADFScriptGenerator.depsIn ts n).filter
          (fun d => !(d ∈ acc))).length := List.length_pos_of_mem hnodeIn
      omega
    · rw [if_neg hin, hIndeg n hn]
      have hnodeNotDep : node ∉ ADFScriptGenerator.depsIn ts n :=
        fun hcon => hin ((hmemnb n).mpr ⟨hn, hcon⟩)
      congr 1
      have hself : ((ADFScriptGenerator.depsIn ts n).filter
          (fun d => !(d ∈ acc))).filter (fun d => d != node) =
          (ADFScriptGenerator.depsIn ts n).filter (fun d => !(d ∈ acc)) := by
        apply List.filter_eq_self.mpr
        intro d hd
        have hdn : d ≠ node := by
          rintro rfl
          exact hnodeNotDep (List.mem_filter.mp hd).1
        simpa using hdn
      rw [hself]
  · -- queue' Nodup
    rw [hsnd, List.nodup_append]
    refine ⟨hrestNd, hnbNd.filter _, ?_⟩
    intro x hx hx'
    have hxq := (hrestMem x).mp hx
    obtain ⟨hxn, hxa, hxd⟩ := (hQMem x).mp hxq.1
    have hxnb : x ∈ ADFScriptGenerator.graphAdj ts node :=
      (List.mem_filter.mp hx').1
    have hdep : node ∈ ADFScriptGenerator.depsIn ts x := ((hmemnb x).mp hxnb).2
    exact hnodeNotAcc (hxd node hdep)
  · -- queue' membership spec
    intro x
    rw [hsnd, List.mem_append, List.mem_filter, hrestMem x]
    constructor
    · rintro (⟨hxq, hxne⟩ | ⟨hxnb, hxz⟩)
      · obtain ⟨hxn, hxa, hxd⟩ := (hQMem x).mp hxq
        refine ⟨hxn, ?_, fun d hd => List.mem_append_left _ (hxd d hd)⟩
        intro hcon
        rcases List.mem_append.mp hcon with h | h
        · exact hxa h
        · exact hxne (by simpa using h)
      · obtain ⟨hxn, hxdep⟩ := (hmemnb x).mp hxnb
        have hxz' : indeg x - 1 = 0 := by simpa using hxz
        rw [hIndeg x hxn] at hxz'
        have hnodeIn : node ∈ (ADFScriptGenerator.depsIn ts x).filter
            (fun d => !(d ∈ acc)) := by
          rw [List.mem_filter]
          exact ⟨hxdep, by simpa using hnodeNotAcc⟩
        have hlen : ((ADFScriptGenerator.depsIn ts x).filter
            (fun d => !(d ∈ acc))).length = 1 := by omega
        obtain ⟨a, ha⟩ := List.length_eq_one.mp hlen
        have hanode : a = node := by
          rw [ha] at hnodeIn
          exact (by simpa using hnodeIn : node = a).symm
        rw [hanode] at ha
        have hdeps' : ∀ d ∈ ADFScriptGenerator.depsIn ts x, d ∈ acc ++ [node] := by
          intro d hd
          by_cases hda : d ∈ acc
          · exact List.mem_append_left _ hda
          · have hdf : d ∈ (ADFScriptGenerator.depsIn ts x).filter
                (fun d => !(d ∈ acc)) := by
              rw [List.mem_filter]
              exact ⟨hd, by simpa using hda⟩
            rw [ha] at hdf
            exact List.mem_append_right _ (by simpa using hdf)
        have hxacc : x ∉ acc := fun hcon => hnodeNotAcc (hAccCl x hcon node hxdep)
        have hxnode : x ≠ node := by
          rintro rfl
          exact hnodeNotAcc (hnodeDeps _ hxdep)
        refine ⟨hxn, ?_, hdeps'⟩
        intro hcon
        rcases List.mem_append.mp hcon with h | h
        · exact hxacc h
        · exact hxnode (by simpa using h)
    · rintro ⟨hxn, hxa', hxd'⟩
      have hxacc : x ∉ acc := fun h => hxa' (List.mem_append_left _ h)
      have hxnode : x ≠ node := by
        rintro rfl
        exact hxa' (List.mem_append_right _ (by simp))
      by_cases hdep : node ∈ ADFScriptGenerator.depsIn ts x
      · right
        refine ⟨(hmemnb x).mpr ⟨hxn, hdep⟩, ?_⟩
        have hsub : ∀ d ∈ (ADFScriptGenerator.depsIn ts x).filter
            (fun d => !(d ∈ acc)), d = node := by
          intro d hd
          obtain ⟨hd1, hd2⟩ := List.mem_filter.mp hd
          rcases List.mem_append.mp (hxd' d hd1) with h | h
          · exact absurd h (by simpa using hd2)
          · simpa using h
        have hnodeIn : node ∈ (ADFScriptGenerator.depsIn ts x).filter
            (fun d => !(d ∈ acc)) := by
          rw [List.mem_filter]
          exact ⟨hdep, by simpa using hnodeNotAcc⟩
        have hndF : ((ADFScriptGenerator.depsIn ts x).filter
            (fun d => !(d ∈ acc))).Nodup :=
          (ADFScriptGenerator.depsIn_nodup ts x).filter _
        have hone := list_eq_singleton_of_nodup_all_eq hndF hsub hnodeIn
        have : indeg x - 1 = 0 := by
          rw [hIndeg x hxn, hone]
          simp
        simpa using this
      · left
        refine ⟨(hQMem x).mpr ⟨hxn, hxacc, ?_⟩, hxnode⟩
        intro d hd
        rcases List.mem_append.mp (hxd' d hd) with h | h
        · exact h
        · exfalso
          have hdn : d = node := by simpa using h
          exact hdep (hdn ▸ hd)

theorem ADFScriptGenerator.eligible_nodup {ts : List ADFScriptGenerator.Trans}
    (hnd : (ADFScriptGenerator.namesOf ts).Nodup) (emitted : List String) :
    (ADFScriptGenerator.eligible ts emitted).Nodup :=
  hnd.filter _

theorem ADFScriptGenerator.mem_eligible (ts : List ADFScriptGenerator.Trans)
    (emitted : List String) (x : String) :
    x ∈ ADFScriptGenerator.eligible ts emitted ↔
      (x ∈ ADFScriptGenerator.namesOf ts ∧ ¬(x ∈ emitted) ∧
        ∀ d ∈ ADFScriptGenerator.depsIn ts x, d ∈ emitted) := by
  unfold ADFScriptGenerator.eligible
  rw [List.mem_filter]
  simp [List.all_eq_true, and_assoc]

theorem ADFScriptGenerator.kahnInv_init {ts : List ADFScriptGenerator.Trans}
    (hnd : (ADFScriptGenerator.namesOf ts).Nodup) :
    ADFScriptGenerator.KahnInv ts
      ((Py.dedupFirst (ADFScriptGenerator.namesOf ts)).filter
        (fun n => ADFScriptGenerator.indegInit ts n = 0))
      (ADFScriptGenerator.indegInit ts) [] := by
  refine ⟨List.nodup_nil, by simp, by simp, ?_, ?_, ?_⟩
  · intro n hn
    rw [ADFScriptGenerator.indegInit_eq hnd]
    simp
  · exact (Py.dedupFirst_nodup _).filter _
  · intro n
    rw [List.mem_filter, Py.mem_dedupFirst]
    constructor
    · rintro ⟨hn, hz⟩
      have hz' : ADFScriptGenerator.indegInit ts n = 0 := by simpa using hz
      rw [ADFScriptGenerator.indegInit_eq hnd] at hz'
      have hlen : (ADFScriptGenerator.depsIn ts n).length = 0 := by exact_mod_cast hz'
      have hnil : ADFScriptGenerator.depsIn ts n = [] := List.length_eq_zero.mp hlen
      refine ⟨hn, by simp, ?_⟩
      rw [hnil]
      intro d hd
      cases hd
    · rintro ⟨hn, _, hd⟩
      refine ⟨hn, ?_⟩
      have hnil : ADFScriptGenerator.depsIn ts n = [] := by
        rw [List.eq_nil_iff_forall_not_mem]
        intro d hdm
        cases hd d hdm
      rw [ADFScriptGenerator.indegInit_eq hnd, hnil]
      simp

theorem ADFScriptGenerator.kahnLoop_eq_specOrder {ts : List ADFScriptGenerator.Trans}
    (hnd : (ADFScriptGenerator.namesOf ts).Nodup) :
    ∀ (fuel : Nat) (queue : List String) (indeg : String → Int) (acc : List String),
      ADFScriptGenerator.KahnInv ts queue indeg acc →
      ADFScriptGenerator.kahnLoop ts fuel queue indeg acc =
        acc ++ ADFScriptGenerator.specOrder ts fuel acc := by
  intro fuel
  induction fuel with
  | zero =>
    intro queue indeg acc _
    simp [ADFScriptGenerator.kahnLoop, ADFScriptGenerator.specOrder]
  | succ n ih =>
    intro queue indeg acc hInv
    have hQNd := hInv.2.2.2.2.1
    have hQMem := hInv.2.2.2.2.2
    have hqe : ADFScriptGenerator.sortQueue queue =
        ADFScriptGenerator.sortQueue (ADFScriptGenerator.eligible ts acc) := by
      apply sortQueue_eq_of_same_mem hQNd (ADFScriptGenerator.eligible_nodup hnd acc)
      intro x
      rw [ADFScriptGenerator.mem_eligible]
      exact hQMem x
    simp only [ADFScriptGenerator.kahnLoop, ADFScriptGenerator.specOrder]
    rw [hqe]
    cases hs : ADFScriptGenerator.sortQueue (ADFScriptGenerator.eligible ts acc) with
    | nil => simp
    | cons m rest' =>
      simp only []
      rw [ih _ _ _ (ADFScriptGenerator.kahnInv_step hnd hInv (hqe.trans hs))]
      simp

theorem strOrd_refl (a : String) : strOrd a a := by
  unfold strOrd Py.strLe
  rw [Py.strLt_irrefl]
  rfl

theorem ADFScriptGenerator.specOrder_mem {ts : List ADFScriptGenerator.Trans} :
    ∀ (fuel : Nat) (emitted : List String) (x : String),
      x ∈ ADFScriptGenerator.specOrder ts fuel emitted →
      x ∈ ADFScriptGenerator.namesOf ts ∧ ¬(x ∈ emitted) := by
  intro fuel
  induction fuel with
  | zero => intro emitted x hx; cases hx
  | succ n ih =>
    intro emitted x hx
    rw [ADFScriptGenerator.specOrder] at hx
    rcases hs : ADFScriptGenerator.sortQueue (ADFScriptGenerator.eligible ts emitted) with
      _ | ⟨m, rest'⟩
    · rw [hs] at hx; cases hx
    · rw [hs] at hx
      have hm : m ∈ ADFScriptGenerator.eligible ts emitted :=
        (sortQueue_perm _).mem_iff.mp (by rw [hs]; simp)
      obtain ⟨hmn, hme, _⟩ := (ADFScriptGenerator.mem_eligible ts emitted m).mp hm
      rcases List.mem_cons.mp hx with rfl | hx'
      · exact ⟨hmn, hme⟩
      · obtain ⟨h1, h2⟩ := ih (emitted ++ [m]) x hx'
        exact ⟨h1, fun hc => h2 (List.mem_append_left _ hc)⟩

theorem ADFScriptGenerator.specOrder_append_nodup {ts : List ADFScriptGenerator.Trans} :
    ∀ (fuel : Nat) (emitted : List String), emitted.Nodup →
      (emitted ++ ADFScriptGenerator.specOrder ts fuel emitted).Nodup := by
  intro fuel
  induction fuel with
  | zero => intro emitted h; simpa [ADFScriptGenerator.specOrder] using h
  | succ n ih =>
    intro emitted h
    rw [ADFScriptGenerator.specOrder]
    rcases hs : ADFScriptGenerator.sortQueue (ADFScriptGenerator.eligible ts emitted) with
      _ | ⟨m, rest'⟩
    · simpa using h
    · have hm : m ∈ ADFScriptGenerator.eligible ts emitted :=
        (sortQueue_perm _).mem_iff.mp (by rw [hs]; simp)
      obtain ⟨_, hme, _⟩ := (ADFScriptGenerator.mem_eligible ts emitted m).mp hm
      have hnd' : (emitted ++ [m]).Nodup := by
        rw [List.nodup_append]
        exact ⟨h, List.nodup_singleton m, by
          intro y hy hym
          rw [List.mem_singleton] at hym
          subst hym
          exact hme hy⟩
      have := ih (emitted ++ [m]) hnd'
      simpa [List.append_assoc] using this

theorem ADFScriptGenerator.specOrder_get_min {ts : List ADFScriptGenerator.Trans} :
    ∀ (fuel : Nat) (emitted : List String) (k : Nat),
      k < (ADFScriptGenerator.specOrder ts fuel emitted).length →
      ((ADFScriptGenerator.specOrder ts fuel emitted).getD k "") ∈
        ADFScriptGenerator.eligible ts
          (emitted ++ (ADFScriptGenerator.specOrder ts fuel emitted).take k) ∧
      ∀ y ∈ ADFScriptGenerator.eligible ts
          (emitted ++ (ADFScriptGenerator.specOrder ts fuel emitted).take k),
        strOrd ((ADFScriptGenerator.specOrder ts fuel emitted).getD k "") y := by
  intro fuel
  induction fuel with
  | zero =>
    intro emitted k hk
    simp [ADFScriptGenerator.specOrder] at hk
  | succ n ih =>
    intro emitted k hk
    rcases hs : ADFScriptGenerator.sortQueue (ADFScriptGenerator.eligible ts emitted) with
      _ | ⟨m, rest'⟩
    · exfalso
      have heq : ADFScriptGenerator.specOrder ts (n + 1) emitted = [] := by
        unfold ADFScriptGenerator.specOrder
        rw [hs]
      rw [heq] at hk
      cases hk
    · have heq : ADFScriptGenerator.specOrder ts (n + 1) emitted =
          m :: ADFScriptGenerator.specOrder ts n (emitted ++ [m]) := by
        conv_lhs => unfold ADFScriptGenerator.specOrder
        rw [hs]
      have hm : m ∈ ADFScriptGenerator.eligible ts emitted :=
        (sortQueue_perm _).mem_iff.mp (by rw [hs]; simp)
      cases k with
      | zero =>
        simp only [heq, List.getD_cons_zero, List.take_zero, List.append_nil]
        refine ⟨hm, ?_⟩
        intro y hy
        have hy2 : y ∈ m :: rest' := by
          rw [← hs]
          exact (sortQueue_perm _).mem_iff.mpr hy
        rcases List.mem_cons.mp hy2 with rfl | hyr
        · exact strOrd_refl y
        · have hsorted := sortQueue_sorted (ADFScriptGenerator.eligible ts emitted)
          rw [hs] at hsorted
          exact (List.sorted_cons.mp hsorted).1 y hyr
      | succ k' =>
        have hk' : k' < (ADFScriptGenerator.specOrder ts n (emitted ++ [m])).length := by
          rw [heq] at hk
          simpa using hk
        have hmain := ih (emitted ++ [m]) k' hk'
        simp only [heq, List.getD_cons_succ, List.take_succ_cons]
        simpa [List.append_assoc] using hmain

theorem ADFScriptGenerator.specOrder_complete {ts : List ADFScriptGenerator.Trans}
    (hnd : (ADFScriptGenerator.namesOf ts).Nodup)
    (hacyc : ADFScriptGenerator.Acyclic ts) :
    ∀ (fuel : Nat) (emitted : List String), emitted.Nodup →
      (∀ x ∈ emitted, x ∈ ADFScriptGenerator.namesOf ts) →
      (ADFScriptGenerator.namesOf ts).length ≤ emitted.length + fuel →
      ∀ x ∈ ADFScriptGenerator.namesOf ts,
        x ∈ emitted ++ ADFScriptGenerator.specOrder ts fuel emitted := by
  intro fuel
  induction fuel with
  | zero =>
    intro emitted hend hsub hlen x hx
    have hfin : emitted.toFinset = (ADFScriptGenerator.namesOf ts).toFinset := by
      apply Finset.eq_of_subset_of_card_le
      · intro y hy
        rw [List.mem_toFinset] at hy ⊢
        exact hsub y hy
      · rw [List.toFinset_card_of_nodup hend, List.toFinset_card_of_nodup hnd]
        omega
    apply List.mem_append_left
    rw [← List.mem_toFinset, hfin, List.mem_toFinset]
    exact hx
  | succ n ih =>
    intro emitted hend hsub hlen x hx
    by_cases hall : ∀ y ∈ ADFScriptGenerator.namesOf ts, y ∈ emitted
    · exact List.mem_append_left _ (hall x hx)
    · push_neg at hall
      obtain ⟨y, hyn, hye⟩ := hall
      have hSsub : (ADFScriptGenerator.namesOf ts).toFinset \ emitted.toFinset ∈
          (ADFScriptGenerator.namesOf ts).toFinset.powerset := by
        rw [Finset.mem_powerset]
        exact Finset.sdiff_subset
      have hSne : ((ADFScriptGenerator.namesOf ts).toFinset \ emitted.toFinset).Nonempty :=
        ⟨y, Finset.mem_sdiff.mpr ⟨List.mem_toFinset.mpr hyn, by
          rw [List.mem_toFinset]; exact hye⟩⟩
      obtain ⟨z, hzS, hzdeps⟩ := hacyc _ hSsub hSne
      obtain ⟨hzn, hze⟩ := Finset.mem_sdiff.mp hzS
      have hz : z ∈ ADFScriptGenerator.eligible ts emitted := by
        rw [ADFScriptGenerator.mem_eligible]
        refine ⟨List.mem_toFinset.mp hzn, by
          rw [← List.mem_toFinset]; exact hze, ?_⟩
        intro d hd
        have hdn := ADFScriptGenerator.depsIn_subset_names ts z d hd
        have hdnotS := hzdeps d hd
        by_contra hde
        exact hdnotS (Finset.mem_sdiff.mpr ⟨List.mem_toFinset.mpr hdn, by
          rw [List.mem_toFinset]; exact hde⟩)
      rw [ADFScriptGenerator.specOrder]
      rcases hs : ADFScriptGenerator.sortQueue (ADFScriptGenerator.eligible ts emitted) with
        _ | ⟨m, rest'⟩
      · exfalso
        have : z ∈ ADFScriptGenerator.sortQueue (ADFScriptGenerator.eligible ts emitted) :=
          (sortQueue_perm _).mem_iff.mpr hz
        rw [hs] at this
        cases this
      · have hm : m ∈ ADFScriptGenerator.eligible ts emitted :=
          (sortQueue_perm _).mem_iff.mp (by rw [hs]; simp)
        obtain ⟨hmn, hme, _⟩ := (ADFScriptGenerator.mem_eligible ts emitted m).mp hm
        have hnd' : (emitted ++ [m]).Nodup := by
          rw [List.nodup_append]
          exact ⟨hend, List.nodup_singleton m, by
            intro w hw hwm
            rw [List.mem_singleton] at hwm
            subst hwm
            exact hme hw⟩
        have hsub' : ∀ w ∈ emitted ++ [m], w ∈ ADFScriptGenerator.namesOf ts := by
          intro w hw
          rcases List.mem_append.mp hw with h | h
          · exact hsub w h
          · rw [List.mem_singleton] at h; subst h; exact hmn
        have hlen' : (ADFScriptGenerator.namesOf ts).length ≤ (emitted ++ [m]).length + n := by
          rw [List.length_append]
          simp only [List.length_singleton]
          omega
        have := ih (emitted ++ [m]) hnd' hsub' hlen' x hx
        simpa [List.append_assoc] using this

theorem ADFScriptGenerator.specOrder_avoid {ts : List ADFScriptGenerator.Trans}
    {S : Finset String}
    (hS : ∀ x ∈ S, ∃ d ∈ ADFScriptGenerator.depsIn ts x, d ∈ S) :
    ∀ (fuel : Nat) (emitted : List String), (∀ y ∈ emitted, y ∉ S) →
      ∀ x ∈ ADFScriptGenerator.specOrder ts fuel emitted, x ∉ S := by
  intro fuel
  induction fuel with
  | zero => intro emitted _ x hx; cases hx
  | succ n ih =>
    intro emitted hemit x hx
    rw [ADFScriptGenerator.specOrder] at hx
    rcases hs : ADFScriptGenerator.sortQueue (ADFScriptGenerator.eligible ts emitted) with
      _ | ⟨m, rest'⟩
    · rw [hs] at hx; cases hx
    · rw [hs] at hx
      have hm : m ∈ ADFScriptGenerator.eligible ts emitted :=
        (sortQueue_perm _).mem_iff.mp (by rw [hs]; simp)
      have hmS : m ∉ S := by
        intro hmS
        obtain ⟨d, hd, hdS⟩ := hS m hmS
        have hde : d ∈ emitted :=
          ((ADFScriptGenerator.mem_eligible ts emitted m).mp hm).2.2 d hd
        exact hemit d hde hdS
      rcases List.mem_cons.mp hx with rfl | hx'
      · exact hmS
      · apply ih (emitted ++ [m]) _ x hx'
        intro w hw
        rcases List.mem_append.mp hw with h | h
        · exact hemit w h
        · rw [List.mem_singleton] at h; subst h; exact hmS

/-- The Kahn loop run from the initial state of
`_topological_sort_transformations` emits exactly the specification
schedule. -/
theorem ADFScriptGenerator.kahn_ordered_eq {ts : List ADFScriptGenerator.Trans}
    (hnd : (ADFScriptGenerator.namesOf ts).Nodup) :
    ADFScriptGenerator.kahnLoop ts (ADFScriptGenerator.namesOf ts).length
      ((Py.dedupFirst (ADFScriptGenerator.namesOf ts)).filter
        (fun n => ADFScriptGenerator.indegInit ts n = 0))
      (ADFScriptGenerator.indegInit ts) [] =
    ADFScriptGenerator.specOrder ts (ADFScriptGenerator.namesOf ts).length [] := by
  have h := ADFScriptGenerator.kahnLoop_eq_specOrder hnd
    (ADFScriptGenerator.namesOf ts).length _ _ []
    (ADFScriptGenerator.kahnInv_init hnd)
  simpa using h

/-- A `filterMap` whose function returns `some (g a)` on every member is the
`map` of `g`. -/
theorem filterMap_some_eq {α β : Type} {f : α → Option β} {g : α → β} :
    ∀ {l : List α}, (∀ a ∈ l, f a = some (g a)) → l.filterMap f = l.map g := by
  intro l
  induction l with
  | nil => intro; rfl
  | cons x xs ih =>
    intro h
    rw [List.filterMap_cons, h x (by simp), List.map_cons,
      ih (fun a ha => h a (List.mem_cons_of_mem _ ha))]

/-- `filterMap` after `map`. -/
theorem filterMap_after_map {α β γ : Type} (f : β → Option γ) (g : α → β) :
    ∀ l : List α, (l.map g).filterMap f = l.filterMap (fun a => f (g a)) := by
  intro l
  induction l with
  | nil => rfl
  | cons x xs ih =>
    rw [List.map_cons, List.filterMap_cons, List.filterMap_cons, ih]

/-- Mapping the name over a `filterMap` that resolves each name to a
transformation of that name gives back the name list. -/
theorem filterMap_names_eq {f : String → Option ADFScriptGenerator.Trans} :
    ∀ l : List String,
      (∀ n ∈ l, ∃ t, f n = some t ∧ t.name = n) →
      (l.filterMap f).map (fun t => t.name) = l := by
  intro l
  induction l with
  | nil => intro; rfl
  | cons x xs ih =>
    intro h
    obtain ⟨t, hft, htn⟩ := h x (by simp)
    rw [List.filterMap_cons, hft, List.map_cons, htn,
      ih (fun n hn => h n (List.mem_cons_of_mem _ hn))]

/-- Under unique names, the emitted schedule is a permutation of the name
list when the graph is acyclic. -/
theorem ADFScriptGenerator.specOrder_perm_names {ts : List ADFScriptGenerator.Trans}
    (hnd : (ADFScriptGenerator.namesOf ts).Nodup)
    (hacyc : ADFScriptGenerator.Acyclic ts) :
    (ADFScriptGenerator.specOrder ts (ADFScriptGenerator.namesOf ts).length []).Perm
      (ADFScriptGenerator.namesOf ts) := by
  have hnodupS : (ADFScriptGenerator.specOrder ts
      (ADFScriptGenerator.namesOf ts).length []).Nodup := by
    simpa using ADFScriptGenerator.specOrder_append_nodup
      (ADFScriptGenerator.namesOf ts).length [] List.nodup_nil
  apply List.perm_of_nodup_nodup_toFinset_eq hnodupS hnd
  ext x
  simp only [List.mem_toFinset]
  constructor
  · intro hx
    exact (ADFScriptGenerator.specOrder_mem _ [] x hx).1
  · intro hx
    have := ADFScriptGenerator.specOrder_complete hnd hacyc
      (ADFScriptGenerator.namesOf ts).length [] List.nodup_nil (by simp) (by simp) x hx
    simpa using this

/-- C3: with unique transformation names and an acyclic dependency graph
(edges from each node's `mainInput`/`leftInput`/`rightInput` that name
another listed node), `_topological_sort_transformations` returns a
permutation of the input list in which the name at every position `k` is an
eligible node — all of its in-list dependencies appear strictly before
position `k` — and is lexicographically least among all nodes eligible
there, so zero-in-degree ties break by name and the (pure) function emits
the same order on every run. -/
theorem C3_topological_sort_is_dependency_respecting_and_lexicographic
    (ts : List ADFScriptGenerator.Trans)
    (hnd : (ADFScriptGenerator.namesOf ts).Nodup)
    (hacyc : ADFScriptGenerator.Acyclic ts) :
    (ADFScriptGenerator.topological_sort_transformations ts).Perm ts ∧
    ∀ k,
      k < ((ADFScriptGenerator.topological_sort_transformations ts).map
            (fun t => t.name)).length →
      (((ADFScriptGenerator.topological_sort_transformations ts).map
          (fun t => t.name)).getD k "") ∈
        ADFScriptGenerator.eligible ts
          (((ADFScriptGenerator.topological_sort_transformations ts).map
              (fun t => t.name)).take k) ∧
      ∀ y ∈ ADFScriptGenerator.eligible ts
          (((ADFScriptGenerator.topological_sort_transformations ts).map
              (fun t => t.name)).take k),
        strOrd (((ADFScriptGenerator.topological_sort_transformations ts).map
            (fun t => t.name)).getD k "") y := by
  have hperm := ADFScriptGenerator.specOrder_perm_names hnd hacyc
  have hlen : (ADFScriptGenerator.specOrder ts
      (ADFScriptGenerator.namesOf ts).length []).length = ts.length := by
    rw [hperm.length_eq]
    simp [ADFScriptGenerator.namesOf]
  have htopo : ADFScriptGenerator.topological_sort_transformations ts =
      (ADFScriptGenerator.specOrder ts
        (ADFScriptGenerator.namesOf ts).length []).filterMap
        (fun n => ts.reverse.find? (fun t => t.name = n)) := by
    simp only [ADFScriptGenerator.topological_sort_transformations]
    rw [ADFScriptGenerator.kahn_ordered_eq hnd]
    rw [if_neg (by simp [hlen])]
  have hfind : ∀ n ∈ ADFScriptGenerator.specOrder ts
      (ADFScriptGenerator.namesOf ts).length [],
      ∃ t, ts.reverse.find? (fun t' => t'.name = n) = some t ∧ t.name = n := by
    intro n hn
    have hnn : n ∈ ADFScriptGenerator.namesOf ts :=
      (ADFScriptGenerator.specOrder_mem _ [] n hn).1
    obtain ⟨t, htmem, htn⟩ := List.mem_map.mp hnn
    refine ⟨t, ?_, htn⟩
    rw [← htn]
    exact ADFScriptGenerator.reverse_find?_name_of_mem hnd htmem
  have hmapname :
      (ADFScriptGenerator.topological_sort_transformations ts).map (fun t => t.name) =
      ADFScriptGenerator.specOrder ts (ADFScriptGenerator.namesOf ts).length [] := by
    rw [htopo]
    exact filterMap_names_eq _ hfind
  constructor
  · rw [htopo]
    have h1 := hperm.filterMap (fun n => ts.reverse.find? (fun t => t.name = n))
    have h2 : (ADFScriptGenerator.namesOf ts).filterMap
        (fun n => ts.reverse.find? (fun t => t.name = n)) = ts := by
      show (ts.map (fun t => t.name)).filterMap
        (fun n => ts.reverse.find? (fun t => t.name = n)) = ts
      simp only [filterMap_after_map]
      have h3 : ∀ t ∈ ts, ts.reverse.find? (fun t' => t'.name = t.name) = some t :=
        fun t ht => ADFScriptGenerator.reverse_find?_name_of_mem hnd ht
      rw [filterMap_some_eq h3]
      simp
    rw [h2] at h1
    exact h1
  · rw [hmapname]
    intro k hk
    have := ADFScriptGenerator.specOrder_get_min
      (ADFScriptGenerator.namesOf ts).length [] k hk
    simpa using this

/-- C4: with unique transformation names, when the dependency graph contains
a cycle the Kahn loop cannot emit every node, so
`_topological_sort_transformations` discards the partial ordering and
returns exactly the original declaration-order list — a complete ordering,
with no failure raised (the embedded function is total). -/
theorem C4_cycle_falls_back_to_declaration_order
    (ts : List ADFScriptGenerator.Trans)
    (hnd : (ADFScriptGenerator.namesOf ts).Nodup)
    (hcyc : ADFScriptGenerator.HasCycle ts) :
    ADFScriptGenerator.topological_sort_transformations ts = ts := by
  obtain ⟨S, hSsub, hSne, hSdeps⟩ := hcyc
  obtain ⟨y, hyS⟩ := hSne
  have hyn : y ∈ ADFScriptGenerator.namesOf ts :=
    List.mem_toFinset.mp (Finset.mem_powerset.mp hSsub hyS)
  have havoid := ADFScriptGenerator.specOrder_avoid hSdeps
    (ADFScriptGenerator.namesOf ts).length [] (by simp)
  have hynot : y ∉ ADFScriptGenerator.specOrder ts
      (ADFScriptGenerator.namesOf ts).length [] :=
    fun hc => havoid y hc hyS
  have hnodupS : (ADFScriptGenerator.specOrder ts
      (ADFScriptGenerator.namesOf ts).length []).Nodup := by
    simpa using ADFScriptGenerator.specOrder_append_nodup
      (ADFScriptGenerator.namesOf ts).length [] List.nodup_nil
  have hsubF : (ADFScriptGenerator.specOrder ts
      (ADFScriptGenerator.namesOf ts).length []).toFinset ⊆
      (ADFScriptGenerator.namesOf ts).toFinset.erase y := by
    intro x hx
    rw [List.mem_toFinset] at hx
    rw [Finset.mem_erase]
    refine ⟨?_, List.mem_toFinset.mpr (ADFScriptGenerator.specOrder_mem _ [] x hx).1⟩
    rintro rfl
    exact hynot hx
  have h1 : (ADFScriptGenerator.specOrder ts
      (ADFScriptGenerator.namesOf ts).length []).length =
      (ADFScriptGenerator.specOrder ts
        (ADFScriptGenerator.namesOf ts).length []).toFinset.card :=
    (List.toFinset_card_of_nodup hnodupS).symm
  have h2 := Finset.card_le_card hsubF
  have h3 : ((ADFScriptGenerator.namesOf ts).toFinset.erase y).card =
      (ADFScriptGenerator.namesOf ts).toFinset.card - 1 :=
    Finset.card_erase_of_mem (List.mem_toFinset.mpr hyn)
  have h4 : (ADFScriptGenerator.namesOf ts).toFinset.card =
      (ADFScriptGenerator.namesOf ts).length :=
    List.toFinset_card_of_nodup hnd
  have h5 : (ADFScriptGenerator.namesOf ts).length = ts.length := by
    simp [ADFScriptGenerator.namesOf]
  have h6 : 0 < (ADFScriptGenerator.namesOf ts).toFinset.card :=
    Finset.card_pos.mpr ⟨y, List.mem_toFinset.mpr hyn⟩
  simp only [ADFScriptGenerator.topological_sort_transformations]
  rw [ADFScriptGenerator.kahn_ordered_eq hnd]
  rw [if_pos (by omega)]

/-- Witness for C4 at a two-node cycle `A → B → A`. -/
theorem C4_witness :
    (ADFScriptGenerator.namesOf
      [{ name := "A", ttype := "Filter", mainInput := some "B" },
       { name := "B", ttype := "Filter", mainInput := some "A" }]).Nodup ∧
    ADFScriptGenerator.HasCycle
      [{ name := "A", ttype := "Filter", mainInput := some "B" },
       { name := "B", ttype := "Filter", mainInput := some "A" }] ∧
    ADFScriptGenerator.topological_sort_transformations
      [{ name := "A", ttype := "Filter", mainInput := some "B" },
       { name := "B", ttype := "Filter", mainInput := some "A" }] =
      [{ name := "A", ttype := "Filter", mainInput := some "B" },
       { name := "B", ttype := "Filter", mainInput := some "A" }] :=
  ⟨by decide, by unfold ADFScriptGenerator.HasCycle; decide,
   C4_cycle_falls_back_to_declaration_order
     [{ name := "A", ttype := "Filter", mainInput := some "B" },
      { name := "B", ttype := "Filter", mainInput := some "A" }]
     (by decide) (by unfold ADFScriptGenerator.HasCycle; decide)⟩

/-- Witness for C3 at the three-node graph `A ← C → B` (both `A` and `B`
depend on `C`). -/
theorem C3_witness :
    (ADFScriptGenerator.namesOf
      [{ name := "A", ttype := "Filter", mainInput := some "C" },
       { name := "B", ttype := "Filter", mainInput := some "C" },
       { name := "C", ttype := "Filter" }]).Nodup ∧
    ADFScriptGenerator.Acyclic
      [{ name := "A", ttype := "Filter", mainInput := some "C" },
       { name := "B", ttype := "Filter", mainInput := some "C" },
       { name := "C", ttype := "Filter" }] ∧
    (ADFScriptGenerator.topological_sort_transformations
      [{ name := "A", ttype := "Filter", mainInput := some "C" },
       { name := "B", ttype := "Filter", mainInput := some "C" },
       { name := "C", ttype := "Filter" }]).Perm
      [{ name := "A", ttype := "Filter", mainInput := some "C" },
       { name := "B", ttype := "Filter", mainInput := some "C" },
       { name := "C", ttype := "Filter" }] ∧
    ∀ k,
      k < ((ADFScriptGenerator.topological_sort_transformations
            [{ name := "A", ttype := "Filter", mainInput := some "C" },
             { name := "B", ttype := "Filter", mainInput := some "C" },
             { name := "C", ttype := "Filter" }]).map
            (fun t => t.name)).length →
      (((ADFScriptGenerator.topological_sort_transformations
            [{ name := "A", ttype := "Filter", mainInput := some "C" },
             { name := "B", ttype := "Filter", mainInput := some "C" },
             { name := "C", ttype := "Filter" }]).map
          (fun t => t.name)).getD k "") ∈
        ADFScriptGenerator.eligible
          [{ name := "A", ttype := "Filter", mainInput := some "C" },
           { name := "B", ttype := "Filter", mainInput := some "C" },
           { name := "C", ttype := "Filter" }]
          (((ADFScriptGenerator.topological_sort_transformations
                [{ name := "A", ttype := "Filter", mainInput := some "C" },
                 { name := "B", ttype := "Filter", mainInput := some "C" },
                 { name := "C", ttype := "Filter" }]).map
              (fun t => t.name)).take k) ∧
      ∀ y ∈ ADFScriptGenerator.eligible
          [{ name := "A", ttype := "Filter", mainInput := some "C" },
           { name := "B", ttype := "Filter", mainInput := some "C" },
           { name := "C", ttype := "Filter" }]
          (((ADFScriptGenerator.topological_sort_transformations
                [{ name := "A", ttype := "Filter", mainInput := some "C" },
                 { name := "B", ttype := "Filter", mainInput := some "C" },
                 { name := "C", ttype := "Filter" }]).map
              (fun t => t.name)).take k),
        strOrd (((ADFScriptGenerator.topological_sort_transformations
              [{ name := "A", ttype := "Filter", mainInput := some "C" },
               { name := "B", ttype := "Filter", mainInput := some "C" },
               { name := "C", ttype := "Filter" }]).map
            (fun t => t.name)).getD k "") y :=
  ⟨by decide, by unfold ADFScriptGenerator.Acyclic; decide,
   C3_topological_sort_is_dependency_respecting_and_lexicographic
     [{ name := "A", ttype := "Filter", mainInput := some "C" },
      { name := "B", ttype := "Filter", mainInput := some "C" },
      { name := "C", ttype := "Filter" }]
     (by decide) (by unfold ADFScriptGenerator.Acyclic; decide)⟩

/-- C9 (amended): `generate_dataflow` emits every sink block with one
single, global `last_step` stream — the last non-skipped transformation in
topological order, else the first source name — rather than a per-sink
"last node feeding that sink": whenever the sink emission succeeds, the
blocks are exactly `generate_sink_script snk last_step` for each declared
sink, and every block's first line is that one shared stream followed by
` sink(`, independent of which nodes feed which sink. -/
theorem C9_sink_blocks_share_single_global_stream
    (st : ADFScriptGenerator.DataflowStructure) (blocks : List (List String))
    (hok : ADFScriptGenerator.dataflowSinkBlocks st = .ok blocks) :
    ∃ srcs : List String,
      ADFScriptGenerator.buildSourcesAux
          (!(st.transformations.isEmpty && st.sinks.isEmpty)) st.sources [] = .ok srcs ∧
      blocks = st.sinks.map (fun snk =>
        ADFScriptGenerator.generate_sink_script snk
          (ADFScriptGenerator.optStr
            (ADFScriptGenerator.lastStepOf st.transformations
              (ADFScriptGenerator.flatFileAdd st.transformations srcs)))) ∧
      ∀ b ∈ blocks, b.head? = some
        (ADFScriptGenerator.optStr
          (ADFScriptGenerator.lastStepOf st.transformations
            (ADFScriptGenerator.flatFileAdd st.transformations srcs)) ++ " sink(") := by
  unfold ADFScriptGenerator.dataflowSinkBlocks at hok
  rcases hb : ADFScriptGenerator.buildSourcesAux
      (!(st.transformations.isEmpty && st.sinks.isEmpty)) st.sources [] with s | srcs
  · rw [hb] at hok
    simp at hok
  · rw [hb] at hok
    simp only [Except.ok.injEq] at hok
    subst hok
    refine ⟨srcs, rfl, rfl, ?_⟩
    intro b hbm
    obtain ⟨snk, hsnk, rfl⟩ := List.mem_map.mp hbm
    simp [ADFScriptGenerator.generate_sink_script]

/-- Witness for C9 at a structure with one source, no transformations and one
sink: the sink block's stream is the first (only) source. -/
theorem C9_witness :
    ∃ srcs : List String,
      ADFScriptGenerator.buildSourcesAux true ["SRC"] [] = .ok srcs ∧
      [ADFScriptGenerator.generate_sink_script "S1" "SRC"] =
        (["S1"] : List String).map (fun snk =>
          ADFScriptGenerator.generate_sink_script snk
            (ADFScriptGenerator.optStr
              (ADFScriptGenerator.lastStepOf []
                (ADFScriptGenerator.flatFileAdd [] srcs)))) ∧
      ∀ b ∈ [ADFScriptGenerator.generate_sink_script "S1" "SRC"], b.head? = some
        (ADFScriptGenerator.optStr
          (ADFScriptGenerator.lastStepOf []
            (ADFScriptGenerator.flatFileAdd [] srcs)) ++ " sink(") := by
  have := C9_sink_blocks_share_single_global_stream
    { sources := ["SRC"], transformations := [], sinks := ["S1"] }
    [ADFScriptGenerator.generate_sink_script "S1" "SRC"] (by rfl)
  simpa using this

/-- C9 counterexample: two independent chains `SRC_A → T_A` and
`SRC_B → T_B` with two sinks.  The code emits BOTH sink blocks reading from
the single global stream `T_B` (the last transformation in topological
order); in particular sink `S1`, whose only upstream chain is `T_A`, still
reads from `T_B`, refuting "each sink line begins with the name of the final
upstream node connected to that sink". -/
theorem C9_counterexample_sink_ignores_its_feeder :
    ADFScriptGenerator.dataflowSinkBlocks
      { sources := ["SRC_A", "SRC_B"],
        transformations :=
          [{ name := "T_A", ttype := "Expression", mainInput := some "SRC_A" },
           { name := "T_B", ttype := "Expression", mainInput := some "SRC_B" }],
        sinks := ["S1", "S2"] } =
      Except.ok
        [ADFScriptGenerator.generate_sink_script "S1" "T_B",
         ADFScriptGenerator.generate_sink_script "S2" "T_B"] ∧
    (ADFScriptGenerator.generate_sink_script "S1" "T_B").head? = some "T_B sink(" := by
  constructor
  · rfl
  · rfl
